import Mathlib

/-!
Verification of the pi-ralph loop manager and overlay.

This file gives a shallow embedding of the repository's core state and
operations (`LoopManager` in `src/loop-manager.ts` and `RalphOverlay` in
`src/overlay.ts`) as executable Lean definitions, and proves the specified
properties about them.

Modelling conventions:
- JavaScript `Map` objects are modelled as association lists
  (`List (String × TrackedLoop)`): `Map.set` on an existing key replaces the
  binding in place, otherwise appends; iteration order is list order, which
  matches JS `Map` insertion-order iteration.
- JS `Set` objects are modelled as duplicate-free lists with membership.
- JS numbers that the code treats integrally are modelled as `Int`
  (the focus cursor uses JS `%`, which is truncated modulus, `Int.tmod`).
- `Date.now()`, the current working directory, `pi.exec` results and the
  contents of `.ralph/current-loop-id` are external inputs and are passed
  in as explicit parameters/oracles.
- The opaque PTY session handle is modelled as `Option Nat` (an opaque id).
-/

namespace PiRalph

/-- `LoopSource` from `loop-manager.ts`: `"tool" | "discovered"`. -/
inductive LoopSource where
  | tool
  | discovered
deriving DecidableEq, Repr

/-- `TrackedLoop` from `loop-manager.ts`. -/
structure TrackedLoop where
  id : String
  pid : Option Int
  directory : Option String
  worktree : Option String
  status : String
  iteration : Int
  maxIterations : Int
  hat : Option String
  elapsedSecs : Int
  backend : Option String
  source : LoopSource
  ptySession : Option Nat
  removed : Bool
  lastSeenAt : Nat
deriving DecidableEq, Repr

/-- The JS `Map<string, TrackedLoop>` used by `mergePolled`, as an
insertion-ordered association list. -/
abbrev LoopMap := List (String × TrackedLoop)

/-- `Map.get`. -/
def mapGet : LoopMap → String → Option TrackedLoop
  | [], _ => none
  | p :: m, k => if p.1 = k then some p.2 else mapGet m k

/-- `Map.has`. -/
def mapHas (m : LoopMap) (k : String) : Bool :=
  (mapGet m k).isSome

/-- `Map.set`: replace the binding in place if the key is present,
otherwise append at the end (JS `Map` insertion-order semantics). -/
def mapSet : LoopMap → String → TrackedLoop → LoopMap
  | [], k, v => [(k, v)]
  | p :: m, k, v => if p.1 = k then (k, v) :: m else p :: mapSet m k v

/-- `Map.delete`. -/
def mapDelete : LoopMap → String → LoopMap
  | [], _ => []
  | p :: m, k => if p.1 = k then mapDelete m k else p :: mapDelete m k

/-- `new Map(this.loops.map((l) => [l.id, l]))`. -/
def buildMap (l : List TrackedLoop) : LoopMap :=
  l.foldl (fun m r => mapSet m r.id r) []

/-- `Set.add` on the `seen` set (order is irrelevant, membership is what
is used). -/
def seenAdd (s : List String) (k : String) : List String :=
  if k ∈ s then s else s ++ [k]

/-- Keys of an association map, in order. -/
def mapKeys (m : LoopMap) : List String :=
  m.map (fun p => p.1)

/-- The map's keys are duplicate-free (an invariant of a JS `Map`). -/
def NodupKeys (m : LoopMap) : Prop :=
  (mapKeys m).Nodup

/-- Every binding's value carries its key as its `id` (an invariant of
the map maintained by `mergePolled`). -/
def KeyIdMap (m : LoopMap) : Prop :=
  ∀ p ∈ m, (p : String × TrackedLoop).2.id = p.1


/-- The state held by `LoopManager` (fields relevant to the verified
operations). -/
structure LoopManagerState where
  loops : List TrackedLoop
  focusedIndex : Int
  pollInFlight : Bool
  consecutivePollFailures : Nat
  lastPollError : Option String
deriving DecidableEq, Repr

/-- `getLoops()` with the default `includeRemoved = false`. -/
def activeLoops (st : LoopManagerState) : List TrackedLoop :=
  st.loops.filter (fun l => !l.removed)

/-- `getFocused()`: clamps the cursor against the active list (and stores
the clamped value), returning the record at the clamped position. -/
def getFocused (st : LoopManagerState) : LoopManagerState × Option TrackedLoop :=
  let active := activeLoops st
  if active.length = 0 then (st, none)
  else
    let idx := min (max st.focusedIndex 0) ((active.length : Int) - 1)
    ({ st with focusedIndex := idx }, active[idx.toNat]?)

/-- `cycleFocus(direction)`: JS `%` is truncated modulus (`Int.tmod`);
a negative index into a JS array yields `undefined`, hence `none`. -/
def cycleFocus (st : LoopManagerState) (direction : Int) :
    LoopManagerState × Option TrackedLoop :=
  let active := activeLoops st
  if active.length = 0 then ({ st with focusedIndex := 0 }, none)
  else
    let n : Int := active.length
    let fi := Int.tmod (st.focusedIndex + direction + n) n
    ({ st with focusedIndex := fi },
      if fi < 0 then none else active[fi.toNat]?)

/-- `s.startsWith(p)`, computed structurally on the character lists (so
that concrete instances reduce inside the kernel). -/
def strStartsWith (s p : String) : Bool :=
  p.data.isPrefixOf s.data

/-- The directory guard in `mergePolled`:
`next.directory && !next.directory.startsWith("(")` (null and the empty
string are falsy in JS). -/
def goodDir : Option String → Bool
  | none => false
  | some d => d ≠ "" && !(strStartsWith d "(")

/-- The update branch of `mergePolled`:
`{...existing, ...next, directory, worktree, source: existing.source,
ptySession: existing.ptySession, removed: false, lastSeenAt: now}`.
Because `next` supplies every `TrackedLoop` field, the spread of
`existing` is fully overridden except for the explicitly kept fields. -/
def mergeRecord (existing next : TrackedLoop) (now : Nat) : TrackedLoop :=
  { next with
    directory := if goodDir next.directory then next.directory else existing.directory
    worktree := match next.worktree with
      | some w => some w
      | none => existing.worktree
    source := existing.source
    ptySession := existing.ptySession
    removed := false
    lastSeenAt := now }

/-- The insert branch of `mergePolled`:
`{...next, removed: false, lastSeenAt: now}`. -/
def insertRecord (next : TrackedLoop) (now : Nat) : TrackedLoop :=
  { next with removed := false, lastSeenAt := now }

/-- The rekey search in `mergePolled`: the first map entry with
`source === "tool"`, a key starting with `"primary-"`, and a directory
equal to the candidate's directory (map iteration order = insertion
order, with an early `break`). -/
def findRekey (dir : Option String) : LoopMap → Option (String × TrackedLoop)
  | [] => none
  | p :: m =>
    if p.2.source = LoopSource.tool ∧ strStartsWith p.1 "primary-" ∧ p.2.directory = dir
    then some p else findRekey dir m

/-- Accumulator of the `for (const next of polled)` loop in `mergePolled`. -/
structure MergeAcc where
  byId : LoopMap
  seen : List String
deriving Repr

/-- One iteration of the `for (const next of polled)` loop in
`mergePolled`. -/
def mergeStep (now : Nat) (acc : MergeAcc) (next : TrackedLoop) : MergeAcc :=
  let seen := seenAdd acc.seen next.id
  match mapGet acc.byId next.id with
  | some existing =>
      { byId := mapSet acc.byId next.id (mergeRecord existing next now), seen := seen }
  | none =>
      if next.id = "(primary)" then
        match findRekey next.directory acc.byId with
        | some p =>
            { byId := mapSet (mapDelete acc.byId p.1) next.id (mergeRecord p.2 next now)
              seen := seen }
        | none =>
            { byId := mapSet acc.byId next.id (insertRecord next now), seen := seen }
      else
        { byId := mapSet acc.byId next.id (insertRecord next now), seen := seen }

/-- The removal-marking loop of `mergePolled`: every map entry whose id was
not seen in this pass and whose source is not `"tool"` gets
`removed = true`. -/
def markRemoved (seen : List String) (m : LoopMap) : LoopMap :=
  m.map (fun p =>
    if p.2.id ∉ seen ∧ p.2.source ≠ LoopSource.tool
    then (p.1, { p.2 with removed := true }) else p)

/-- The stable-ordering reconstruction of `mergePolled`: previously-known
ids first (in their old order, when still present), then the remaining map
keys in insertion order, skipping ids already taken. -/
def orderedIdsOf (nextIds ordered1 : List String) : List String :=
  nextIds.foldl (fun os i => if i ∈ os then os else os ++ [i]) ordered1

/-- The `for (const next of polled)` loop of `mergePolled`, starting from
the map of the current collection and an empty `seen` set. -/
def mergeFold (st : LoopManagerState) (now : Nat) (polled : List TrackedLoop) :
    MergeAcc :=
  polled.foldl (mergeStep now) { byId := buildMap st.loops, seen := [] }

/-- The map after `mergePolled`'s removal-marking loop. -/
def mergedMap (st : LoopManagerState) (now : Nat) (polled : List TrackedLoop) :
    LoopMap :=
  markRemoved (mergeFold st now polled).seen (mergeFold st now polled).byId

/-- The `orderedIds` list of `mergePolled`: `prevOrder` entries still in the
map first, then the remaining map keys. -/
def mergedIds (st : LoopManagerState) (now : Nat) (polled : List TrackedLoop) :
    List String :=
  orderedIdsOf (mapKeys (mergedMap st now polled))
    ((st.loops.map (fun l => l.id)).filter (fun i => mapHas (mergedMap st now polled) i))

/-- `mergePolled(polled)` from `loop-manager.ts` (`Date.now()` is the
explicit `now` parameter). -/
def mergePolled (st : LoopManagerState) (now : Nat) (polled : List TrackedLoop) :
    LoopManagerState :=
  let byId2 := mergedMap st now polled
  let loops2 := (mergedIds st now polled).filterMap (fun i => mapGet byId2 i)
  let active := loops2.filter (fun l => !l.removed)
  let fi := if active.length = 0 then 0
            else min st.focusedIndex ((active.length : Int) - 1)
  { st with loops := loops2, focusedIndex := fi }

/-- The input of `upsertToolLoop` (the unused `command` field is omitted). -/
structure ToolLoopInput where
  id : String
  pid : Int
  directory : String
  worktree : Option String
  ptySession : Option Nat
deriving DecidableEq, Repr

/-- The fresh record built by `upsertToolLoop`. -/
def toolLoopRecord (inp : ToolLoopInput) (now : Nat) : TrackedLoop :=
  { id := inp.id
    pid := some inp.pid
    directory := some inp.directory
    worktree := inp.worktree
    status := "running"
    iteration := 0
    maxIterations := 0
    hat := none
    elapsedSecs := 0
    backend := none
    source := LoopSource.tool
    ptySession := inp.ptySession
    removed := false
    lastSeenAt := now }

/-- `upsertToolLoop`. In the update branch the TS spread
`{...existing, ...next, source: "tool", ptySession, removed: false,
lastSeenAt: now}` is fully overridden by `next`, so the stored record is
exactly `next`. -/
def upsertToolLoop (st : LoopManagerState) (now : Nat) (inp : ToolLoopInput) :
    LoopManagerState :=
  let next := toolLoopRecord inp now
  match st.loops.findIdx? (fun l => l.id == inp.id) with
  | some idx => { st with loops := st.loops.set idx next }
  | none =>
      let st1 := { st with loops := st.loops ++ [next] }
      if (activeLoops st1).length = 1 then { st1 with focusedIndex := 0 } else st1

/-- `setFocusById(id)`. -/
def setFocusById (st : LoopManagerState) (id : String) : LoopManagerState :=
  let active := activeLoops st
  match active.findIdx? (fun l => l.id == id) with
  | some idx => { st with focusedIndex := (idx : Int) }
  | none => st

/-! ### Identity resolver (`parseLoopsJson`, lines 336-424)

The per-element mapping of `parseLoopsJson` is a pure function from one
semi-structured raw record to an optional `TrackedLoop` draft. A raw JSON
field is either absent, a string, a number, or something else; `typeof`
checks degrade mistyped fields to their neutral defaults. -/

/-- One dynamically-typed JSON field value. -/
inductive JVal where
  | str (s : String)
  | num (n : Int)
  | other
deriving DecidableEq, Repr

/-- `typeof raw?.f === "string" ? raw.f : <none>`. -/
def asStr : Option JVal → Option String
  | some (JVal.str s) => some s
  | _ => none

/-- `typeof raw?.f === "number" ? raw.f : <none>`. -/
def asNum : Option JVal → Option Int
  | some (JVal.num n) => some n
  | _ => none

/-- One raw element of the `ralph loops list --json` output, with every
field `parseLoopsJson` inspects. -/
structure RawLoop where
  loop_id : Option JVal
  id : Option JVal
  state : Option JVal
  status : Option JVal
  pid : Option JVal
  worktree : Option JVal
  workspace : Option JVal
  worktree_path : Option JVal
  directory : Option JVal
  path : Option JVal
  iteration : Option JVal
  max_iterations : Option JVal
  maxIterations : Option JVal
  elapsed_secs : Option JVal
  elapsedSecs : Option JVal
  hat : Option JVal
  backend : Option JVal
deriving DecidableEq, Repr

/-- `isAbsPath` from `parseLoopsJson`:
`s != null && s.length > 0 && s.startsWith("/")`. -/
def isAbsPath : Option String → Bool
  | none => false
  | some s => s ≠ "" && strStartsWith s "/"

/-- The per-element body of `parseLoopsJson`: resolve one raw record to a
`TrackedLoop` draft, or `none` when no usable id field exists. -/
def parseRawLoop (raw : RawLoop) (now : Nat) : Option TrackedLoop :=
  match (match asStr raw.loop_id with
         | some s => some s
         | none => asStr raw.id) with
  | none => none
  | some id =>
    let status := match asStr raw.state with
      | some s => s
      | none => match asStr raw.status with
        | some s => s
        | none => "unknown"
    let pid := asNum raw.pid
    let worktree := asStr raw.worktree
    let workspace := asStr raw.workspace
    let worktreePath := asStr raw.worktree_path
    let directory :=
      if isAbsPath (asStr raw.directory) then asStr raw.directory
      else if isAbsPath (asStr raw.path) then asStr raw.path
      else if isAbsPath workspace then workspace
      else if isAbsPath worktreePath then worktreePath
      else none
    let iteration := match asNum raw.iteration with
      | some n => n
      | none => 0
    let maxIterations := match asNum raw.max_iterations with
      | some n => n
      | none => match asNum raw.maxIterations with
        | some n => n
        | none => 0
    let elapsedSecs := match asNum raw.elapsed_secs with
      | some n => n
      | none => match asNum raw.elapsedSecs with
        | some n => n
        | none => 0
    some
      { id := id
        pid := pid
        directory := directory
        worktree := worktree
        status := status
        iteration := iteration
        maxIterations := maxIterations
        hat := asStr raw.hat
        elapsedSecs := elapsedSecs
        backend := asStr raw.backend
        source := LoopSource.discovered
        ptySession := none
        removed := false
        lastSeenAt := now }

/-- The list-level body of `parseLoopsJson` on an already-decoded array:
map each element and drop unresolvable ones. -/
def parseLoopsList (data : List RawLoop) (now : Nat) : List TrackedLoop :=
  data.filterMap (fun raw => parseRawLoop raw now)

/-! ### Poll (`poll`, lines 96-167)

`pi.exec` per directory is an external oracle. An exec call either throws
(rejected promise / abort) or returns an exit code together with the
outcome of `parseLoopsJson` on its stdout (`none` = parse error, which the
code swallows for that directory). A throw aborts the whole directory loop
and lands in the outer `catch`. -/

/-- Outcome of `pi.exec("ralph", ["loops","list","--json"], {cwd: dir})`
combined with parsing its stdout. -/
inductive ExecOutcome where
  | thrown (msg : String)
  | ret (code : Int) (parsed : Option (List TrackedLoop))
deriving Repr

/-- The unique project directories polled: `if (loop.directory)
dirs.add(loop.directory)` over all loops, falling back to `cwd`. -/
def pollDirs (st : LoopManagerState) (cwd : String) : List String :=
  let dirs := st.loops.foldl
    (fun ds l => match l.directory with
      | some d => if d ≠ "" ∧ d ∉ ds then ds ++ [d] else ds
      | none => ds) []
  if dirs.isEmpty then [cwd] else dirs

/-- Tag parsed loops with the polling directory:
`if (!loop.directory) loop.directory = dir`. -/
def tagDirectory (dir : String) (l : TrackedLoop) : TrackedLoop :=
  if l.directory = none ∨ l.directory = some "" then { l with directory := some dir }
  else l

/-- The per-directory gather loop of `poll`: accumulates `anySuccess` and
`allParsed`; a thrown exec aborts the loop with the error message. -/
def gatherPolled (exec : String → ExecOutcome) (dirs : List String) :
    Except String (Bool × List TrackedLoop) :=
  dirs.foldl
    (fun acc d => match acc with
      | Except.error m => Except.error m
      | Except.ok (anySuccess, all) =>
        match exec d with
        | ExecOutcome.thrown msg => Except.error msg
        | ExecOutcome.ret code parsed =>
          if code = 0 then
            match parsed with
            | some loops => Except.ok (true, all ++ loops.map (tagDirectory d))
            | none => Except.ok (true, all)
          else Except.ok (anySuccess, all))
    (Except.ok (false, []))

/-- `byId` deduplication in `poll`: last value wins, first-insertion
position kept, then `Array.from(byId.values())`. -/
def dedupById (loops : List TrackedLoop) : List TrackedLoop :=
  (loops.foldl (fun m l => mapSet m l.id l) ([] : LoopMap)).map (fun p => p.2)

/-- `poll(signal?)`. Returns the new manager state and the poll result
(`none` models the `null` returns). The `finally` block clears
`pollInFlight` on every exit path. -/
def poll (st : LoopManagerState) (cwd : String) (now : Nat)
    (exec : String → ExecOutcome) :
    LoopManagerState × Option (List TrackedLoop) :=
  if st.pollInFlight then (st, none)
  else
    let st0 := { st with pollInFlight := true }
    let res :=
      match gatherPolled exec (pollDirs st cwd) with
      | Except.error msg =>
          ({ st0 with
             consecutivePollFailures := st0.consecutivePollFailures + 1
             lastPollError := some msg }, none)
      | Except.ok (anySuccess, allParsed) =>
          if anySuccess then
            let st1 := mergePolled st0 now (dedupById allParsed)
            let st2 := { st1 with consecutivePollFailures := 0, lastPollError := none }
            (st2, some (activeLoops st2))
          else
            ({ st0 with
               consecutivePollFailures := st0.consecutivePollFailures + 1
               lastPollError := some "all poll attempts failed" }, none)
    ({ res.1 with pollInFlight := false }, res.2)

/-! ### Overlay (`src/overlay.ts`)

`RalphOverlay.handleInput` is modelled as a pure transition on the
overlay's own state together with a list of emitted effects (calls into
collaborators: running external `ralph` commands, cycling focus, writing
to or scrolling the attached session, requesting renders). The focused
loop and the contents of `.ralph/current-loop-id` are inputs. -/

/-- The pending confirmation record
`{action: string; command: string[]; label: string}`. -/
structure ConfirmState where
  action : String
  command : List String
  label : String
deriving DecidableEq, Repr

/-- `type ViewMode = "pty" | "history" | "diff"`. -/
inductive ViewMode where
  | pty
  | history
  | diff
deriving DecidableEq, Repr

/-- The `RalphOverlay` fields touched by `handleInput` (and the
synchronous prefixes of `runAction`/`runTextView`). `hasSession` models
`this.session !== null`. -/
structure OverlayState where
  view : ViewMode
  textViewTitle : Option String
  textViewLines : List String
  textScroll : Nat
  textLoading : Bool
  confirm : Option ConfirmState
  footerMessage : Option String
  hasSession : Bool
  closed : Bool
deriving DecidableEq, Repr

/-- Effects emitted by `handleInput` toward collaborators. -/
inductive Effect where
  | runAction (label : String) (command : List String)
  | runTextView (title : String) (command : List String)
  | cycleFocus (direction : Int)
  | sessionScrollUp
  | sessionScrollDown
  | writePty (data : String)
  | attach (cwd : String)
  | requestRender
deriving DecidableEq, Repr

/-- Key encodings (`matchesKey(data, ...)` against pi-tui's `Key`). -/
def keyEscape : String := "\x1b"
def keyUp : String := "\x1b[A"
def keyDown : String := "\x1b[B"
def keyRight : String := "\x1b[C"
def keyLeft : String := "\x1b[D"
def keyShiftUp : String := "\x1b[1;2A"
def keyShiftDown : String := "\x1b[1;2B"

/-- `resolveLoopIdForCli(loop)` (overlay.ts lines 40-53). `readIdFile`
models `readFileSync(join(dir, ".ralph", "current-loop-id"))`, with
`none` for a missing/unreadable file. -/
def resolveLoopIdForCli (readIdFile : String → Option String) (loop : TrackedLoop) :
    Option String :=
  if loop.id ≠ "(primary)" then some loop.id
  else
    let dir := match loop.directory with
      | some d => some d
      | none => loop.worktree
    match dir with
    | none => none
    | some d =>
      if d = "" then none
      else match readIdFile d with
        | none => none
        | some content =>
          let id := content.trim
          if id.length > 0 then some id else none

/-- `this.footerMessage = msg; ...` helper. -/
def setFooter (ov : OverlayState) (msg : String) : OverlayState :=
  { ov with footerMessage := some msg }

/-- The synchronous prefix of `runAction(label, command)` plus the
external-command effect it fires. -/
def fireAction (ov : OverlayState) (label : String) (command : List String) :
    OverlayState × List Effect :=
  ({ ov with footerMessage := some (label ++ "...") },
   [Effect.runAction label command, Effect.requestRender])

/-- The synchronous prefix of `runTextView(title, command)` plus the
external-command effect it fires. -/
def fireTextView (ov : OverlayState) (title : String) (command : List String) :
    OverlayState × List Effect :=
  ({ ov with
     view := if title = "History" then ViewMode.history else ViewMode.diff
     textViewTitle := some title
     textLoading := true
     textViewLines := []
     textScroll := 0
     footerMessage := none },
   [Effect.runTextView title command, Effect.requestRender])

/-- `handleInput(data)` (overlay.ts lines 203-380). `focused` is
`this.loopManager.getFocused()`; closing the overlay is recorded in the
`closed` flag. -/
def handleInput (readIdFile : String → Option String) (focused : Option TrackedLoop)
    (ov : OverlayState) (data : String) : OverlayState × List Effect :=
  if data = keyEscape then
    match ov.confirm with
    | some _ =>
        ({ ov with confirm := none, footerMessage := some "Cancelled" },
         [Effect.requestRender])
    | none =>
      if ov.view ≠ ViewMode.pty then
        ({ ov with view := ViewMode.pty, textScroll := 0 }, [Effect.requestRender])
      else ({ ov with closed := true }, [])
  else
    match ov.confirm with
    | some c =>
      if data = "y" ∨ data = "Y" then
        fireAction { ov with confirm := none } c.label c.command
      else if data = "n" ∨ data = "N" then
        ({ ov with confirm := none, footerMessage := some "Cancelled" },
         [Effect.requestRender])
      else (ov, [])
    | none =>
      if ov.view ≠ ViewMode.pty then
        if data = "q" then
          ({ ov with view := ViewMode.pty, textScroll := 0 }, [Effect.requestRender])
        else if data = keyUp ∨ data = "k" then
          ({ ov with textScroll := ov.textScroll - 1 }, [Effect.requestRender])
        else if data = keyDown ∨ data = "j" then
          ({ ov with textScroll := min (ov.textViewLines.length - 1) (ov.textScroll + 1) },
           [Effect.requestRender])
        else if data = keyShiftUp then
          ({ ov with textScroll := ov.textScroll - 10 }, [Effect.requestRender])
        else if data = keyShiftDown then
          ({ ov with textScroll := min (ov.textViewLines.length - 1) (ov.textScroll + 10) },
           [Effect.requestRender])
        else (ov, [])
      else if data = keyLeft then (ov, [Effect.cycleFocus (-1)])
      else if data = keyRight then (ov, [Effect.cycleFocus 1])
      else if data = keyShiftUp then
        (ov, if ov.hasSession then [Effect.sessionScrollUp, Effect.requestRender]
             else [Effect.requestRender])
      else if data = keyShiftDown then
        (ov, if ov.hasSession then [Effect.sessionScrollDown, Effect.requestRender]
             else [Effect.requestRender])
      else
        match focused with
        | none => (ov, [])
        | some f =>
          let isPrimary := f.id = "(primary)"
          let cliId := resolveLoopIdForCli readIdFile f
          let primaryIdMissingMsg :=
            "Unable to resolve primary loop id (.ralph/current-loop-id missing)"
          let cliOrRaw := match cliId with
            | some i => i
            | none => f.id
          if data = "s" then
            let cmd := if isPrimary then ["loops", "stop"]
                       else ["loops", "stop", cliOrRaw]
            ({ ov with
               confirm := some { action := "stop", label := "Stop", command := cmd }
               footerMessage := none }, [Effect.requestRender])
          else if data = "m" then
            if isPrimary then
              ({ ov with footerMessage := some "Merge not available for primary loop" },
               [Effect.requestRender])
            else fireAction ov "Merge" ["loops", "merge", cliOrRaw]
          else if data = "d" then
            if isPrimary then
              (setFooter ov "Discard not available for primary loop (use stop)",
               [Effect.requestRender])
            else
              ({ ov with
                 confirm := some { action := "discard", label := "Discard"
                                   command := ["loops", "discard", "--yes", cliOrRaw] }
                 footerMessage := none }, [Effect.requestRender])
          else if data = "r" then
            match cliId with
            | none => ({ ov with footerMessage := some primaryIdMissingMsg },
                       [Effect.requestRender])
            | some i => fireAction ov "Retry" ["loops", "retry", i]
          else if data = "H" then
            match cliId with
            | none => ({ ov with footerMessage := some primaryIdMissingMsg },
                       [Effect.requestRender])
            | some i => fireTextView ov "History" ["loops", "history", i]
          else if data = "D" then
            match cliId with
            | none => ({ ov with footerMessage := some primaryIdMissingMsg },
                       [Effect.requestRender])
            | some i => fireTextView ov "Diff" ["loops", "diff", i]
          else if data = "a" then
            match (match f.worktree with
                   | some w => some w
                   | none => f.directory) with
            | some cwd =>
                if cwd = "" then
                  (setFooter ov "No directory/worktree available to attach",
                   [Effect.requestRender])
                else ({ ov with closed := true }, [Effect.attach cwd])
            | none =>
                (setFooter ov "No directory/worktree available to attach",
                 [Effect.requestRender])
          else (ov, if ov.hasSession then [Effect.writePty data] else [])

/-- Is an effect an external `ralph` command execution? (`runAction` and
`runTextView` both invoke `pi.exec`.) -/
def isExternalCommand : Effect → Bool
  | Effect.runAction _ _ => true
  | Effect.runTextView _ _ => true
  | _ => false

/-! ## Association-map lemmas -/

theorem mapGet_mapSet_self (m : LoopMap) (k : String) (v : TrackedLoop) :
    mapGet (mapSet m k v) k = some v := by
  induction m with
  | nil => simp [mapSet, mapGet]
  | cons p m ih =>
    by_cases h : p.1 = k
    · simp [mapSet, h, mapGet]
    · simp [mapSet, h, mapGet, ih]

theorem mapGet_mapSet_ne (m : LoopMap) (k k' : String) (v : TrackedLoop)
    (h : k' ≠ k) : mapGet (mapSet m k v) k' = mapGet m k' := by
  have h' : ¬k = k' := fun e => h e.symm
  induction m with
  | nil => simp [mapSet, mapGet, h']
  | cons p m ih =>
    by_cases hp : p.1 = k
    · have hpk' : ¬p.1 = k' := by
        rw [hp]
        exact h'
      simp [mapSet, hp, mapGet, h', hpk']
    · by_cases hp' : p.1 = k'
      · simp [mapSet, hp, mapGet, hp', h]
      · simp [mapSet, hp, mapGet, hp', ih]

theorem mapGet_mapDelete_self (m : LoopMap) (k : String) :
    mapGet (mapDelete m k) k = none := by
  induction m with
  | nil => simp [mapDelete, mapGet]
  | cons p m ih =>
    by_cases h : p.1 = k
    · simp [mapDelete, h, ih]
    · simp [mapDelete, h, mapGet, ih]

theorem mapGet_mapDelete_ne (m : LoopMap) (k k' : String) (h : k' ≠ k) :
    mapGet (mapDelete m k) k' = mapGet m k' := by
  have h' : ¬k = k' := fun e => h e.symm
  induction m with
  | nil => simp [mapDelete, mapGet]
  | cons p m ih =>
    by_cases hp : p.1 = k
    · have hpk' : ¬p.1 = k' := by
        rw [hp]
        exact h'
      simp [mapDelete, hp, mapGet, hpk', h', ih]
    · by_cases hp' : p.1 = k'
      · simp [mapDelete, hp, mapGet, hp', h]
      · simp [mapDelete, hp, mapGet, hp', ih]

theorem mem_mapSet (m : LoopMap) (k : String) (v : TrackedLoop)
    (p : String × TrackedLoop) (h : p ∈ mapSet m k v) : p = (k, v) ∨ p ∈ m := by
  induction m with
  | nil => simpa [mapSet] using h
  | cons q m ih =>
    by_cases hq : q.1 = k
    · rcases (by simpa [mapSet, hq] using h : p = (k, v) ∨ p ∈ m) with h' | h'
      · exact Or.inl h'
      · exact Or.inr (List.mem_cons_of_mem _ h')
    · rcases (by simpa [mapSet, hq] using h : p = q ∨ p ∈ mapSet m k v) with h' | h'
      · exact Or.inr (h' ▸ List.mem_cons_self q m)
      · rcases ih h' with h'' | h''
        · exact Or.inl h''
        · exact Or.inr (List.mem_cons_of_mem _ h'')

theorem mem_mapDelete (m : LoopMap) (k : String) (p : String × TrackedLoop)
    (h : p ∈ mapDelete m k) : p ∈ m := by
  induction m with
  | nil => simpa [mapDelete] using h
  | cons q m ih =>
    by_cases hq : q.1 = k
    · exact List.mem_cons_of_mem _ (ih (by simpa [mapDelete, hq] using h))
    · rcases (by simpa [mapDelete, hq] using h : p = q ∨ p ∈ mapDelete m k) with h' | h'
      · exact h' ▸ List.mem_cons_self q m
      · exact List.mem_cons_of_mem _ (ih h')

theorem mapGet_mem (m : LoopMap) (k : String) (v : TrackedLoop)
    (h : mapGet m k = some v) : (k, v) ∈ m := by
  induction m with
  | nil => simp [mapGet] at h
  | cons p m ih =>
    by_cases hp : p.1 = k
    · have : p.2 = v := by simpa [mapGet, hp] using h
      have : p = (k, v) := Prod.ext hp this
      exact this ▸ List.mem_cons_self p m
    · exact List.mem_cons_of_mem _ (ih (by simpa [mapGet, hp] using h))

theorem mapGet_isSome_of_mem (m : LoopMap) (k : String) (v : TrackedLoop)
    (h : (k, v) ∈ m) : (mapGet m k).isSome = true := by
  induction m with
  | nil => simp at h
  | cons p m ih =>
    rcases List.mem_cons.mp h with h' | h'
    · simp [mapGet, ← h']
    · by_cases hp : p.1 = k
      · simp [mapGet, hp]
      · simpa [mapGet, hp] using ih h'

theorem mapGet_of_mem_nodup (m : LoopMap) (k : String) (v : TrackedLoop)
    (hn : NodupKeys m) (h : (k, v) ∈ m) : mapGet m k = some v := by
  induction m with
  | nil => simp at h
  | cons p m ih =>
    have hn2 : (p.1 :: mapKeys m).Nodup := hn
    have hn' : NodupKeys m := (List.nodup_cons.mp hn2).2
    rcases List.mem_cons.mp h with h' | h'
    · simp [mapGet, ← h']
    · by_cases hp : p.1 = k
      · exfalso
        have hkm : k ∈ mapKeys m := List.mem_map.mpr ⟨(k, v), h', rfl⟩
        have hpm : p.1 ∈ mapKeys m := by
          rw [hp]
          exact hkm
        exact (List.nodup_cons.mp hn2).1 hpm
      · simpa [mapGet, hp] using ih hn' h'

theorem mapKeys_mapSet_of_has (m : LoopMap) (k : String) (v : TrackedLoop)
    (h : mapHas m k = true) : mapKeys (mapSet m k v) = mapKeys m := by
  induction m with
  | nil => simp [mapHas, mapGet] at h
  | cons p m ih =>
    by_cases hp : p.1 = k
    · simp [mapSet, hp, mapKeys]
    · have h' : mapHas m k = true := by simpa [mapHas, mapGet, hp] using h
      simp [mapSet, hp, mapKeys] at ih ⊢
      exact ih h'

theorem mapSet_eq_append_of_not_has (m : LoopMap) (k : String) (v : TrackedLoop)
    (h : mapHas m k = false) : mapSet m k v = m ++ [(k, v)] := by
  induction m with
  | nil => simp [mapSet]
  | cons p m ih =>
    by_cases hp : p.1 = k
    · simp [mapHas, mapGet, hp] at h
    · have h' : mapHas m k = false := by simpa [mapHas, mapGet, hp] using h
      simp [mapSet, hp, ih h']

theorem mapKeys_mapDelete (m : LoopMap) (k : String) :
    mapKeys (mapDelete m k) = (mapKeys m).filter (fun i => i ≠ k) := by
  induction m with
  | nil => simp [mapDelete, mapKeys]
  | cons p m ih =>
    simp only [mapKeys, ne_eq, decide_not] at ih
    by_cases hp : p.1 = k
    · simp [mapDelete, hp, mapKeys, ne_eq, decide_not, ih]
    · simp [mapDelete, hp, mapKeys, ne_eq, decide_not, ih]

theorem mapHas_iff_mem_keys (m : LoopMap) (k : String) :
    mapHas m k = true ↔ k ∈ mapKeys m := by
  induction m with
  | nil => simp [mapHas, mapGet, mapKeys]
  | cons p m ih =>
    by_cases hp : p.1 = k
    · simp [mapHas, mapGet, hp, mapKeys]
    · have hne : ¬k = p.1 := fun e => hp e.symm
      simp only [mapHas, mapGet, hp, if_false, mapKeys, List.map_cons, List.mem_cons] at ih ⊢
      constructor
      · intro h
        exact Or.inr (ih.mp h)
      · rintro (h | h)
        · exact absurd h hne
        · exact ih.mpr h

theorem nodupKeys_mapSet (m : LoopMap) (k : String) (v : TrackedLoop)
    (hn : NodupKeys m) : NodupKeys (mapSet m k v) := by
  by_cases h : mapHas m k = true
  · unfold NodupKeys
    rw [mapKeys_mapSet_of_has m k v h]
    exact hn
  · have h' : mapHas m k = false := by simpa using h
    unfold NodupKeys
    rw [mapSet_eq_append_of_not_has m k v h']
    have hk : k ∉ mapKeys m := fun hmem => by
      simp [(mapHas_iff_mem_keys m k).mpr hmem] at h'
    simp only [mapKeys, List.map_append, List.map_cons, List.map_nil]
    rw [List.nodup_append]
    refine ⟨hn, List.nodup_singleton k, ?_⟩
    intro a ha hb
    simp at hb
    subst hb
    exact hk ha

theorem nodupKeys_mapDelete (m : LoopMap) (k : String) (hn : NodupKeys m) :
    NodupKeys (mapDelete m k) := by
  unfold NodupKeys
  rw [mapKeys_mapDelete]
  exact List.Nodup.filter _ hn

theorem keyId_mapSet (m : LoopMap) (k : String) (v : TrackedLoop)
    (hm : KeyIdMap m) (hv : v.id = k) : KeyIdMap (mapSet m k v) := by
  intro p hp
  rcases mem_mapSet m k v p hp with h | h
  · subst h
    exact hv
  · exact hm p h

theorem keyId_mapDelete (m : LoopMap) (k : String) (hm : KeyIdMap m) :
    KeyIdMap (mapDelete m k) := by
  intro p hp
  exact hm p (mem_mapDelete m k p hp)

theorem mapHas_mapSet (m : LoopMap) (k k' : String) (v : TrackedLoop) :
    mapHas (mapSet m k v) k' = (if k' = k then true else mapHas m k') := by
  by_cases h : k' = k
  · subst h
    simp [mapHas, mapGet_mapSet_self]
  · simp [mapHas, mapGet_mapSet_ne m k k' v h, h]

/-! ## buildMap lemmas -/

theorem buildMap_go_mem (l : List TrackedLoop) :
    ∀ (acc : LoopMap) (p : String × TrackedLoop),
      p ∈ l.foldl (fun m r => mapSet m r.id r) acc →
      p ∈ acc ∨ (p.2 ∈ l ∧ p.1 = p.2.id) := by
  induction l with
  | nil =>
    intro acc p h
    exact Or.inl h
  | cons r l ih =>
    intro acc p h
    rcases ih (mapSet acc r.id r) p h with h' | h'
    · rcases mem_mapSet acc r.id r p h' with h'' | h''
      · subst h''
        exact Or.inr ⟨List.mem_cons_self r l, rfl⟩
      · exact Or.inl h''
    · exact Or.inr ⟨List.mem_cons_of_mem _ h'.1, h'.2⟩

theorem mem_buildMap (l : List TrackedLoop) (p : String × TrackedLoop)
    (h : p ∈ buildMap l) : p.2 ∈ l ∧ p.1 = p.2.id := by
  rcases buildMap_go_mem l [] p h with h' | h'
  · simp at h'
  · exact h'

theorem keyId_buildMap (l : List TrackedLoop) : KeyIdMap (buildMap l) :=
  fun p hp => ((mem_buildMap l p hp).2).symm

theorem nodupKeys_buildMap_go (l : List TrackedLoop) :
    ∀ acc : LoopMap, NodupKeys acc →
      NodupKeys (l.foldl (fun m r => mapSet m r.id r) acc) := by
  induction l with
  | nil =>
    intro acc h
    exact h
  | cons r l ih =>
    intro acc h
    exact ih _ (nodupKeys_mapSet acc r.id r h)

theorem nodupKeys_buildMap (l : List TrackedLoop) : NodupKeys (buildMap l) :=
  nodupKeys_buildMap_go l [] (by simp [NodupKeys, mapKeys])

theorem mapHas_foldl_buildMap_mono (l : List TrackedLoop) :
    ∀ acc : LoopMap, ∀ k, mapHas acc k = true →
      mapHas (l.foldl (fun m r => mapSet m r.id r) acc) k = true := by
  induction l with
  | nil =>
    intro acc k h
    exact h
  | cons r l ih =>
    intro acc k h
    refine ih _ k ?_
    rw [mapHas_mapSet]
    by_cases hk : k = r.id <;> simp [hk, h]

theorem mapHas_foldl_buildMap_of_mem (l : List TrackedLoop) :
    ∀ (acc : LoopMap) (r : TrackedLoop), r ∈ l →
      mapHas (l.foldl (fun m r => mapSet m r.id r) acc) r.id = true := by
  induction l with
  | nil =>
    intro acc r h
    simp at h
  | cons r0 l ih =>
    intro acc r h
    rcases List.mem_cons.mp h with rfl | h'
    · refine mapHas_foldl_buildMap_mono l _ _ ?_
      rw [mapHas_mapSet]
      simp
    · exact ih _ r h'

theorem mapHas_buildMap (l : List TrackedLoop) (k : String) :
    mapHas (buildMap l) k = true ↔ k ∈ l.map (fun r => r.id) := by
  constructor
  · intro h
    have hsome : (mapGet (buildMap l) k).isSome = true := h
    cases hv : mapGet (buildMap l) k with
    | none => simp [hv] at hsome
    | some v =>
      have := mem_buildMap l (k, v) (mapGet_mem _ _ _ hv)
      exact List.mem_map.mpr ⟨v, this.1, this.2.symm⟩
  · intro h
    rcases List.mem_map.mp h with ⟨r, hr, rfl⟩
    exact mapHas_foldl_buildMap_of_mem l [] r hr

theorem mapGet_buildMap_of_nodup (l : List TrackedLoop)
    (hnd : (l.map (fun r => r.id)).Nodup) (r : TrackedLoop) (hr : r ∈ l) :
    mapGet (buildMap l) r.id = some r := by
  induction l using List.reverseRecOn with
  | nil => simp at hr
  | append_singleton l r1 ih =>
    have hb : buildMap (l ++ [r1]) = mapSet (buildMap l) r1.id r1 := by
      simp [buildMap, List.foldl_append]
    rcases List.mem_append.mp hr with hr' | hr'
    · have hne : r.id ≠ r1.id := by
        intro he
        have h1 : r.id ∈ l.map (fun r => r.id) := List.mem_map.mpr ⟨r, hr', rfl⟩
        have := (List.nodup_append.mp (by simpa using hnd)).2.2
        exact this h1 (by simp [he])
      rw [hb, mapGet_mapSet_ne _ _ _ _ hne]
      exact ih (List.Nodup.sublist (by simp) hnd) hr'
    · have : r = r1 := by simpa using hr'
      subst this
      rw [hb, mapGet_mapSet_self]

theorem mapGet_buildMap_eq (l : List TrackedLoop) (M : LoopMap) (k : String)
    (h : ∀ r ∈ l, mapGet M r.id = some r) (hk : k ∈ l.map (fun r => r.id)) :
    mapGet (buildMap l) k = mapGet M k := by
  induction l using List.reverseRecOn with
  | nil => simp at hk
  | append_singleton l r1 ih =>
    have hb : buildMap (l ++ [r1]) = mapSet (buildMap l) r1.id r1 := by
      simp [buildMap, List.foldl_append]
    by_cases hkr : k = r1.id
    · subst hkr
      rw [hb, mapGet_mapSet_self, h r1 (by simp)]
    · have hk' : k ∈ l.map (fun r => r.id) := by
        rcases List.mem_map.mp hk with ⟨r, hr, rfl⟩
        rcases List.mem_append.mp hr with hr' | hr'
        · exact List.mem_map.mpr ⟨r, hr', rfl⟩
        · exact absurd (by simpa using hr' : r = r1) (fun e => hkr (by rw [e]))
      rw [hb, mapGet_mapSet_ne _ _ _ _ hkr]
      exact ih (fun r hr => h r (List.mem_append_left _ hr)) hk'

/-! ## markRemoved lemmas -/

theorem mapGet_markRemoved (seen : List String) (m : LoopMap) (k : String) :
    mapGet (markRemoved seen m) k =
      (mapGet m k).map (fun v =>
        if v.id ∉ seen ∧ v.source ≠ LoopSource.tool
        then { v with removed := true } else v) := by
  induction m with
  | nil => simp [markRemoved, mapGet]
  | cons p m ih =>
    by_cases hp : p.1 = k
    · by_cases hc : p.2.id ∉ seen ∧ p.2.source ≠ LoopSource.tool
      · simp [markRemoved, mapGet, hp, hc]
      · simp [markRemoved, mapGet, hp, hc]
    · by_cases hc : p.2.id ∉ seen ∧ p.2.source ≠ LoopSource.tool
      · simpa [markRemoved, mapGet, hp, hc] using ih
      · simpa [markRemoved, mapGet, hp, hc] using ih

theorem mapKeys_markRemoved (seen : List String) (m : LoopMap) :
    mapKeys (markRemoved seen m) = mapKeys m := by
  induction m with
  | nil => simp [markRemoved, mapKeys]
  | cons p m ih =>
    by_cases hc : p.2.id ∉ seen ∧ p.2.source ≠ LoopSource.tool
    · simpa [markRemoved, mapKeys, hc] using ih
    · simpa [markRemoved, mapKeys, hc] using ih

theorem mem_markRemoved (seen : List String) (m : LoopMap) (p : String × TrackedLoop)
    (h : p ∈ markRemoved seen m) :
    ∃ q ∈ m, p = (if q.2.id ∉ seen ∧ q.2.source ≠ LoopSource.tool
                  then ((q : String × TrackedLoop).1, { q.2 with removed := true }) else q) := by
  rcases List.mem_map.mp h with ⟨q, hq, hpq⟩
  exact ⟨q, hq, by rw [← hpq]⟩

theorem keyId_markRemoved (seen : List String) (m : LoopMap) (hm : KeyIdMap m) :
    KeyIdMap (markRemoved seen m) := by
  intro p hp
  rcases mem_markRemoved seen m p hp with ⟨q, hq, hpq⟩
  have hbase := hm q hq
  by_cases hc : q.2.id ∉ seen ∧ q.2.source ≠ LoopSource.tool
  · rw [hpq, if_pos hc]
    exact hbase
  · rw [hpq, if_neg hc]
    exact hbase

/-! ## Lemmas about the merge fold -/

theorem mergeRecord_id (ex c : TrackedLoop) (now : Nat) :
    (mergeRecord ex c now).id = c.id := rfl

theorem mergeRecord_source (ex c : TrackedLoop) (now : Nat) :
    (mergeRecord ex c now).source = ex.source := rfl

theorem mergeRecord_ptySession (ex c : TrackedLoop) (now : Nat) :
    (mergeRecord ex c now).ptySession = ex.ptySession := rfl

theorem mergeRecord_removed (ex c : TrackedLoop) (now : Nat) :
    (mergeRecord ex c now).removed = false := rfl

theorem mergeRecord_directory_bad (ex c : TrackedLoop) (now : Nat)
    (h : goodDir c.directory = false) :
    (mergeRecord ex c now).directory = ex.directory := by
  simp [mergeRecord, h]

theorem mapSet_mapSet_self (m : LoopMap) (k : String) (v1 v2 : TrackedLoop) :
    mapSet (mapSet m k v1) k v2 = mapSet m k v2 := by
  induction m with
  | nil => simp [mapSet]
  | cons p m ih =>
    by_cases hp : p.1 = k
    · simp [mapSet, hp]
    · simp [mapSet, hp, ih]

theorem mergeRecord_self_absorb (ex c : TrackedLoop) (now : Nat) :
    mergeRecord (mergeRecord ex c now) c now = mergeRecord ex c now := by
  unfold mergeRecord
  by_cases hg : goodDir c.directory = true
  · cases hw : c.worktree <;> simp [hg, hw]
  · have hg' : goodDir c.directory = false := by simpa using hg
    cases hw : c.worktree <;> simp [hg', hw]

theorem insertRecord_id (c : TrackedLoop) (now : Nat) :
    (insertRecord c now).id = c.id := rfl

theorem insertRecord_removed (c : TrackedLoop) (now : Nat) :
    (insertRecord c now).removed = false := rfl

theorem findRekey_spec (dir : Option String) (m : LoopMap) (p : String × TrackedLoop)
    (h : findRekey dir m = some p) :
    p ∈ m ∧ p.2.source = LoopSource.tool ∧ strStartsWith p.1 "primary-" = true ∧
      p.2.directory = dir := by
  induction m with
  | nil => simp [findRekey] at h
  | cons q m ih =>
    by_cases hq : q.2.source = LoopSource.tool ∧ strStartsWith q.1 "primary-" ∧
        q.2.directory = dir
    · have hpq : some q = some p := by
        simpa [findRekey, hq] using h
      injection hpq with hpq
      subst hpq
      exact ⟨List.mem_cons_self q m, hq.1, hq.2.1, hq.2.2⟩
    · have h' : findRekey dir m = some p := by
        simpa [findRekey, hq] using h
      obtain ⟨h1, h2, h3, h4⟩ := ih h'
      exact ⟨List.mem_cons_of_mem _ h1, h2, h3, h4⟩

theorem mergeStep_update (now : Nat) (acc : MergeAcc) (c e : TrackedLoop)
    (h : mapGet acc.byId c.id = some e) :
    mergeStep now acc c =
      { byId := mapSet acc.byId c.id (mergeRecord e c now)
        seen := seenAdd acc.seen c.id } := by
  simp [mergeStep, h]

theorem mergeStep_rekey (now : Nat) (acc : MergeAcc) (c : TrackedLoop)
    (p : String × TrackedLoop) (h : mapGet acc.byId c.id = none)
    (hp : c.id = "(primary)") (hr : findRekey c.directory acc.byId = some p) :
    mergeStep now acc c =
      { byId := mapSet (mapDelete acc.byId p.1) c.id (mergeRecord p.2 c now)
        seen := seenAdd acc.seen c.id } := by
  rw [hp] at h
  simp [mergeStep, hp, h, hr]

theorem mergeStep_insert_primary (now : Nat) (acc : MergeAcc) (c : TrackedLoop)
    (h : mapGet acc.byId c.id = none) (hp : c.id = "(primary)")
    (hr : findRekey c.directory acc.byId = none) :
    mergeStep now acc c =
      { byId := mapSet acc.byId c.id (insertRecord c now)
        seen := seenAdd acc.seen c.id } := by
  rw [hp] at h
  simp [mergeStep, hp, h, hr]

theorem mergeStep_insert (now : Nat) (acc : MergeAcc) (c : TrackedLoop)
    (h : mapGet acc.byId c.id = none) (hp : ¬c.id = "(primary)") :
    mergeStep now acc c =
      { byId := mapSet acc.byId c.id (insertRecord c now)
        seen := seenAdd acc.seen c.id } := by
  simp [mergeStep, h, hp]

theorem mergeStep_seen (now : Nat) (acc : MergeAcc) (c : TrackedLoop) :
    (mergeStep now acc c).seen = seenAdd acc.seen c.id := by
  cases h : mapGet acc.byId c.id with
  | some e => rw [mergeStep_update now acc c e h]
  | none =>
    by_cases hp : c.id = "(primary)"
    · cases hr : findRekey c.directory acc.byId with
      | some p => rw [mergeStep_rekey now acc c p h hp hr]
      | none => rw [mergeStep_insert_primary now acc c h hp hr]
    · rw [mergeStep_insert now acc c h hp]

theorem mem_seenAdd (s : List String) (k k' : String) :
    k' ∈ seenAdd s k ↔ k' ∈ s ∨ k' = k := by
  by_cases h : k ∈ s
  · simp only [seenAdd, if_pos h]
    constructor
    · exact Or.inl
    · rintro (h' | rfl)
      · exact h'
      · exact h
  · simp [seenAdd, h]

theorem foldl_mergeStep_seen (now : Nat) (cs : List TrackedLoop) :
    ∀ (acc : MergeAcc) (k : String),
      k ∈ (cs.foldl (mergeStep now) acc).seen ↔
        k ∈ acc.seen ∨ k ∈ cs.map (fun c => c.id) := by
  induction cs with
  | nil => simp
  | cons c cs ih =>
    intro acc k
    rw [List.foldl_cons, ih (mergeStep now acc c) k, mergeStep_seen, mem_seenAdd]
    simp only [List.map_cons, List.mem_cons]
    tauto

theorem mem_mergeStep_byId (now : Nat) (acc : MergeAcc) (c : TrackedLoop)
    (p : String × TrackedLoop) (h : p ∈ (mergeStep now acc c).byId)
    (hrem : p.2.removed = true) : p ∈ acc.byId := by
  cases h0 : mapGet acc.byId c.id with
  | some e =>
    rw [mergeStep_update now acc c e h0] at h
    rcases mem_mapSet _ _ _ _ h with h' | h'
    · rw [h'] at hrem
      simp [mergeRecord_removed] at hrem
    · exact h'
  | none =>
    by_cases hp : c.id = "(primary)"
    · cases hr : findRekey c.directory acc.byId with
      | some q =>
        rw [mergeStep_rekey now acc c q h0 hp hr] at h
        rcases mem_mapSet _ _ _ _ h with h' | h'
        · rw [h'] at hrem
          simp [mergeRecord_removed] at hrem
        · exact mem_mapDelete _ _ _ h'
      | none =>
        rw [mergeStep_insert_primary now acc c h0 hp hr] at h
        rcases mem_mapSet _ _ _ _ h with h' | h'
        · rw [h'] at hrem
          simp [insertRecord_removed] at hrem
        · exact h'
    · rw [mergeStep_insert now acc c h0 hp] at h
      rcases mem_mapSet _ _ _ _ h with h' | h'
      · rw [h'] at hrem
        simp [insertRecord_removed] at hrem
      · exact h'

theorem foldl_mergeStep_removed_mem (now : Nat) (cs : List TrackedLoop) :
    ∀ (acc : MergeAcc) (p : String × TrackedLoop),
      p ∈ (cs.foldl (mergeStep now) acc).byId → p.2.removed = true →
      p ∈ acc.byId := by
  induction cs with
  | nil =>
    intro acc p h _
    exact h
  | cons c cs ih =>
    intro acc p h hrem
    exact mem_mergeStep_byId now acc c p (ih (mergeStep now acc c) p h hrem) hrem

theorem nodupKeys_mergeStep (now : Nat) (acc : MergeAcc) (c : TrackedLoop)
    (h : NodupKeys acc.byId) : NodupKeys (mergeStep now acc c).byId := by
  cases h0 : mapGet acc.byId c.id with
  | some e =>
    rw [mergeStep_update now acc c e h0]
    exact nodupKeys_mapSet _ _ _ h
  | none =>
    by_cases hp : c.id = "(primary)"
    · cases hr : findRekey c.directory acc.byId with
      | some q =>
        rw [mergeStep_rekey now acc c q h0 hp hr]
        exact nodupKeys_mapSet _ _ _ (nodupKeys_mapDelete _ _ h)
      | none =>
        rw [mergeStep_insert_primary now acc c h0 hp hr]
        exact nodupKeys_mapSet _ _ _ h
    · rw [mergeStep_insert now acc c h0 hp]
      exact nodupKeys_mapSet _ _ _ h

theorem keyId_mergeStep (now : Nat) (acc : MergeAcc) (c : TrackedLoop)
    (h : KeyIdMap acc.byId) : KeyIdMap (mergeStep now acc c).byId := by
  cases h0 : mapGet acc.byId c.id with
  | some e =>
    rw [mergeStep_update now acc c e h0]
    exact keyId_mapSet _ _ _ h (mergeRecord_id e c now)
  | none =>
    by_cases hp : c.id = "(primary)"
    · cases hr : findRekey c.directory acc.byId with
      | some q =>
        rw [mergeStep_rekey now acc c q h0 hp hr]
        exact keyId_mapSet _ _ _ (keyId_mapDelete _ _ h) (mergeRecord_id q.2 c now)
      | none =>
        rw [mergeStep_insert_primary now acc c h0 hp hr]
        exact keyId_mapSet _ _ _ h (insertRecord_id c now)
    · rw [mergeStep_insert now acc c h0 hp]
      exact keyId_mapSet _ _ _ h (insertRecord_id c now)

theorem foldl_mergeStep_nodupKeys (now : Nat) (cs : List TrackedLoop) :
    ∀ acc : MergeAcc, NodupKeys acc.byId →
      NodupKeys ((cs.foldl (mergeStep now) acc).byId) := by
  induction cs with
  | nil =>
    intro acc h
    exact h
  | cons c cs ih =>
    intro acc h
    exact ih _ (nodupKeys_mergeStep now acc c h)

theorem foldl_mergeStep_keyId (now : Nat) (cs : List TrackedLoop) :
    ∀ acc : MergeAcc, KeyIdMap acc.byId →
      KeyIdMap ((cs.foldl (mergeStep now) acc).byId) := by
  induction cs with
  | nil =>
    intro acc h
    exact h
  | cons c cs ih =>
    intro acc h
    exact ih _ (keyId_mergeStep now acc c h)

theorem mergeStep_get_other (now : Nat) (acc : MergeAcc) (c : TrackedLoop)
    (k : String) (v : TrackedLoop) (hn : NodupKeys acc.byId)
    (hget : mapGet acc.byId k = some v) (hne : ¬c.id = k)
    (hprot : v.source ≠ LoopSource.tool ∨ strStartsWith k "primary-" = false) :
    mapGet (mergeStep now acc c).byId k = some v := by
  have hkc : k ≠ c.id := fun e => hne e.symm
  cases h0 : mapGet acc.byId c.id with
  | some e =>
    rw [mergeStep_update now acc c e h0]
    exact (mapGet_mapSet_ne acc.byId c.id k _ hkc).trans hget
  | none =>
    by_cases hp : c.id = "(primary)"
    · cases hr : findRekey c.directory acc.byId with
      | some q =>
        rw [mergeStep_rekey now acc c q h0 hp hr]
        obtain ⟨hqmem, hqtool, hqpre, -⟩ := findRekey_spec _ _ _ hr
        by_cases hqk : q.1 = k
        · exfalso
          have hq2 : mapGet acc.byId q.1 = some q.2 :=
            mapGet_of_mem_nodup acc.byId q.1 q.2 hn hqmem
          rw [hqk, hget] at hq2
          injection hq2 with hv
          rcases hprot with hs | hs
          · refine hs ?_
            rw [hv]
            exact hqtool
          · rw [← hqk] at hs
            rw [hqpre] at hs
            exact Bool.noConfusion hs
        · have h1 : mapGet (mapDelete acc.byId q.1) k = some v := by
            rw [mapGet_mapDelete_ne acc.byId q.1 k (fun e => hqk e.symm)]
            exact hget
          exact (mapGet_mapSet_ne _ c.id k _ hkc).trans h1
      | none =>
        rw [mergeStep_insert_primary now acc c h0 hp hr]
        exact (mapGet_mapSet_ne acc.byId c.id k _ hkc).trans hget
    · rw [mergeStep_insert now acc c h0 hp]
      exact (mapGet_mapSet_ne acc.byId c.id k _ hkc).trans hget

theorem mergeStep_get_self (now : Nat) (acc : MergeAcc) (c : TrackedLoop) :
    ∃ v, mapGet (mergeStep now acc c).byId c.id = some v ∧ v.removed = false := by
  cases h0 : mapGet acc.byId c.id with
  | some e =>
    rw [mergeStep_update now acc c e h0]
    exact ⟨mergeRecord e c now, mapGet_mapSet_self .., mergeRecord_removed ..⟩
  | none =>
    by_cases hp : c.id = "(primary)"
    · cases hr : findRekey c.directory acc.byId with
      | some q =>
        rw [mergeStep_rekey now acc c q h0 hp hr]
        exact ⟨mergeRecord q.2 c now, mapGet_mapSet_self .., mergeRecord_removed ..⟩
      | none =>
        rw [mergeStep_insert_primary now acc c h0 hp hr]
        exact ⟨insertRecord c now, mapGet_mapSet_self .., insertRecord_removed ..⟩
    · rw [mergeStep_insert now acc c h0 hp]
      exact ⟨insertRecord c now, mapGet_mapSet_self .., insertRecord_removed ..⟩

theorem mergeStep_get_other_weak (now : Nat) (acc : MergeAcc) (c : TrackedLoop)
    (k : String) (hne : k ≠ c.id) :
    mapGet (mergeStep now acc c).byId k = mapGet acc.byId k ∨
    mapGet (mergeStep now acc c).byId k = none := by
  cases h0 : mapGet acc.byId c.id with
  | some e =>
    rw [mergeStep_update now acc c e h0]
    exact Or.inl (mapGet_mapSet_ne acc.byId c.id k _ hne)
  | none =>
    by_cases hp : c.id = "(primary)"
    · cases hr : findRekey c.directory acc.byId with
      | some q =>
        rw [mergeStep_rekey now acc c q h0 hp hr]
        by_cases hqk : q.1 = k
        · refine Or.inr ?_
          rw [mapGet_mapSet_ne _ c.id k _ hne, ← hqk, mapGet_mapDelete_self]
        · refine Or.inl ?_
          rw [mapGet_mapSet_ne _ c.id k _ hne,
            mapGet_mapDelete_ne acc.byId q.1 k (fun e => hqk e.symm)]
      | none =>
        rw [mergeStep_insert_primary now acc c h0 hp hr]
        exact Or.inl (mapGet_mapSet_ne acc.byId c.id k _ hne)
    · rw [mergeStep_insert now acc c h0 hp]
      exact Or.inl (mapGet_mapSet_ne acc.byId c.id k _ hne)

theorem foldl_mergeStep_seen_removed (now : Nat) (cs : List TrackedLoop) :
    ∀ acc : MergeAcc,
      (∀ k v, mapGet acc.byId k = some v → k ∈ acc.seen → v.removed = false) →
      ∀ k v, mapGet ((cs.foldl (mergeStep now) acc).byId) k = some v →
        k ∈ (cs.foldl (mergeStep now) acc).seen → v.removed = false := by
  induction cs with
  | nil =>
    intro acc hinv k v hget hseen
    exact hinv k v hget hseen
  | cons c cs ih =>
    intro acc hinv
    refine ih (mergeStep now acc c) ?_
    intro k v hget hseen
    rw [mergeStep_seen, mem_seenAdd] at hseen
    by_cases hkc : k = c.id
    · obtain ⟨v', hv', hrem⟩ := mergeStep_get_self now acc c
      rw [← hkc] at hv'
      rw [hget] at hv'
      injection hv' with hv'
      rw [hv']
      exact hrem
    · rcases mergeStep_get_other_weak now acc c k hkc with hw | hw
      · rw [hw] at hget
        rcases hseen with hs | hs
        · exact hinv k v hget hs
        · exact absurd hs hkc
      · rw [hw] at hget
        exact Option.noConfusion hget

theorem foldl_mergeStep_track (now : Nat) (cs : List TrackedLoop) :
    ∀ (acc : MergeAcc) (k : String) (v : TrackedLoop),
      NodupKeys acc.byId → mapGet acc.byId k = some v →
      (v.source ≠ LoopSource.tool ∨ strStartsWith k "primary-" = false) →
      ∃ v', mapGet ((cs.foldl (mergeStep now) acc).byId) k = some v' ∧
        v'.source = v.source ∧ v'.ptySession = v.ptySession ∧
        ((∀ c ∈ cs, c.id = k → goodDir c.directory = false) →
          v'.directory = v.directory) ∧
        (k ∉ cs.map (fun c => c.id) → v' = v) := by
  induction cs with
  | nil =>
    intro acc k v _ hget _
    exact ⟨v, hget, rfl, rfl, fun _ => rfl, fun _ => rfl⟩
  | cons c cs ih =>
    intro acc k v hn hget hprot
    by_cases hck : c.id = k
    · have hgetc : mapGet acc.byId c.id = some v := by
        rw [hck]
        exact hget
      have hget1 : mapGet (mergeStep now acc c).byId k = some (mergeRecord v c now) := by
        rw [mergeStep_update now acc c v hgetc, ← hck]
        exact mapGet_mapSet_self ..
      obtain ⟨v', hv', hsrc, hpty, hdir, -⟩ :=
        ih (mergeStep now acc c) k (mergeRecord v c now)
          (nodupKeys_mergeStep now acc c hn) hget1
          (by rw [mergeRecord_source]; exact hprot)
      refine ⟨v', hv', by rw [hsrc, mergeRecord_source],
        by rw [hpty, mergeRecord_ptySession], ?_, ?_⟩
      · intro hall
        have hbad : goodDir c.directory = false := hall c (List.mem_cons_self c cs) hck
        rw [hdir (fun c' hc' hck' => hall c' (List.mem_cons_of_mem _ hc') hck'),
          mergeRecord_directory_bad v c now hbad]
      · intro hnotin
        exact absurd (by simp [hck] : k ∈ (c :: cs).map (fun c => c.id)) hnotin
    · have hget1 : mapGet (mergeStep now acc c).byId k = some v :=
        mergeStep_get_other now acc c k v hn hget hck hprot
      obtain ⟨v', hv', hsrc, hpty, hdir, huntouched⟩ :=
        ih (mergeStep now acc c) k v (nodupKeys_mergeStep now acc c hn) hget1 hprot
      refine ⟨v', hv', hsrc, hpty, ?_, ?_⟩
      · intro hall
        exact hdir (fun c' hc' hck' => hall c' (List.mem_cons_of_mem _ hc') hck')
      · intro hnotin
        refine huntouched (fun hmem => hnotin ?_)
        simp only [List.map_cons, List.mem_cons]
        exact Or.inr hmem

/-! ## Lemmas about the final reconstruction of mergePolled -/

theorem mem_orderedIdsOf (nextIds : List String) :
    ∀ (ordered1 : List String) (k : String),
      k ∈ orderedIdsOf nextIds ordered1 ↔ k ∈ ordered1 ∨ k ∈ nextIds := by
  induction nextIds with
  | nil =>
    intro o k
    simp [orderedIdsOf]
  | cons i is ih =>
    intro o k
    unfold orderedIdsOf
    rw [List.foldl_cons]
    by_cases hio : i ∈ o
    · rw [if_pos hio]
      rw [show is.foldl (fun os i => if i ∈ os then os else os ++ [i]) o =
            orderedIdsOf is o from rfl, ih o k]
      simp only [List.mem_cons]
      constructor
      · rintro (h | h)
        · exact Or.inl h
        · exact Or.inr (Or.inr h)
      · rintro (h | h | h)
        · exact Or.inl h
        · exact Or.inl (h ▸ hio)
        · exact Or.inr h
    · rw [if_neg hio]
      rw [show is.foldl (fun os i => if i ∈ os then os else os ++ [i]) (o ++ [i]) =
            orderedIdsOf is (o ++ [i]) from rfl, ih (o ++ [i]) k]
      simp only [List.mem_append, List.mem_singleton, List.mem_cons]
      tauto

theorem nodup_orderedIdsOf (nextIds : List String) :
    ∀ ordered1 : List String, ordered1.Nodup →
      (orderedIdsOf nextIds ordered1).Nodup := by
  induction nextIds with
  | nil =>
    intro o h
    exact h
  | cons i is ih =>
    intro o h
    unfold orderedIdsOf
    rw [List.foldl_cons]
    by_cases hio : i ∈ o
    · rw [if_pos hio]
      exact ih o h
    · rw [if_neg hio]
      refine ih (o ++ [i]) ?_
      rw [List.nodup_append]
      refine ⟨h, List.nodup_singleton i, ?_⟩
      intro a ha hb
      simp only [List.mem_singleton] at hb
      subst hb
      exact hio ha

theorem filterMap_mapGet_ids (m : LoopMap) (hkid : KeyIdMap m) :
    ∀ ids : List String, (∀ i ∈ ids, mapHas m i = true) →
      (ids.filterMap (fun i => mapGet m i)).map (fun l => l.id) = ids ∧
      (ids.filterMap (fun i => mapGet m i)).length = ids.length := by
  intro ids
  induction ids with
  | nil =>
    intro _
    simp
  | cons i ids ih =>
    intro h
    have hi := h i (List.mem_cons_self i ids)
    cases hv : mapGet m i with
    | none => simp [mapHas, hv] at hi
    | some v =>
      have hvid : v.id = i := hkid (i, v) (mapGet_mem _ _ _ hv)
      obtain ⟨h1, h2⟩ := ih (fun j hj => h j (List.mem_cons_of_mem _ hj))
      simp [List.filterMap_cons, hv, h1, h2, hvid]

theorem keyId_mergedMap (st : LoopManagerState) (now : Nat)
    (polled : List TrackedLoop) : KeyIdMap (mergedMap st now polled) :=
  keyId_markRemoved _ _
    (foldl_mergeStep_keyId now polled _ (keyId_buildMap st.loops))

theorem nodupKeys_mergedMap (st : LoopManagerState) (now : Nat)
    (polled : List TrackedLoop) : NodupKeys (mergedMap st now polled) := by
  unfold mergedMap NodupKeys
  rw [mapKeys_markRemoved]
  exact foldl_mergeStep_nodupKeys now polled _ (nodupKeys_buildMap st.loops)

theorem mapHas_of_mem_mergedIds (st : LoopManagerState) (now : Nat)
    (polled : List TrackedLoop) (i : String) (h : i ∈ mergedIds st now polled) :
    mapHas (mergedMap st now polled) i = true := by
  rcases (mem_orderedIdsOf _ _ _).mp h with h1 | h2
  · exact (List.mem_filter.mp h1).2
  · exact (mapHas_iff_mem_keys _ _).mpr h2

theorem mergePolled_loops (st : LoopManagerState) (now : Nat)
    (polled : List TrackedLoop) :
    (mergePolled st now polled).loops =
      (mergedIds st now polled).filterMap
        (fun i => mapGet (mergedMap st now polled) i) := rfl

theorem mem_mergePolled_loops (st : LoopManagerState) (now : Nat)
    (polled : List TrackedLoop) (r : TrackedLoop) :
    r ∈ (mergePolled st now polled).loops ↔
      ∃ i ∈ mergedIds st now polled, mapGet (mergedMap st now polled) i = some r := by
  rw [mergePolled_loops]
  simp [List.mem_filterMap]

theorem mergePolled_loops_map_id (st : LoopManagerState) (now : Nat)
    (polled : List TrackedLoop) :
    (mergePolled st now polled).loops.map (fun l => l.id) = mergedIds st now polled := by
  rw [mergePolled_loops]
  exact (filterMap_mapGet_ids _ (keyId_mergedMap st now polled) _
    (fun i hi => mapHas_of_mem_mergedIds st now polled i hi)).1

/-! ## Length lemmas -/

theorem length_mapSet_of_has (m : LoopMap) (k : String) (v : TrackedLoop)
    (h : mapHas m k = true) : (mapSet m k v).length = m.length := by
  have h1 : (mapKeys (mapSet m k v)).length = (mapKeys m).length := by
    rw [mapKeys_mapSet_of_has m k v h]
  simpa [mapKeys] using h1

theorem length_mapSet_of_not_has (m : LoopMap) (k : String) (v : TrackedLoop)
    (h : mapHas m k = false) : (mapSet m k v).length = m.length + 1 := by
  rw [mapSet_eq_append_of_not_has m k v h]
  simp

theorem mapDelete_eq_self_of_not_has (m : LoopMap) (k : String)
    (h : mapHas m k = false) : mapDelete m k = m := by
  induction m with
  | nil => rfl
  | cons p m ih =>
    by_cases hp : p.1 = k
    · simp [mapHas, mapGet, hp] at h
    · have h' : mapHas m k = false := by simpa [mapHas, mapGet, hp] using h
      simp [mapDelete, hp, ih h']

theorem length_mapDelete_add_one (m : LoopMap) (k : String) (v : TrackedLoop)
    (hn : NodupKeys m) (h : (k, v) ∈ m) :
    (mapDelete m k).length + 1 = m.length := by
  induction m with
  | nil => simp at h
  | cons p m ih =>
    have hn2 : (p.1 :: mapKeys m).Nodup := hn
    by_cases hp : p.1 = k
    · have hknot : mapHas m k = false := by
        cases hhh : mapHas m k with
        | false => rfl
        | true =>
          exfalso
          have : k ∈ mapKeys m := (mapHas_iff_mem_keys m k).mp hhh
          exact (List.nodup_cons.mp hn2).1 (hp ▸ this)
      simp [mapDelete, hp, mapDelete_eq_self_of_not_has m k hknot]
    · have hmem : (k, v) ∈ m := by
        rcases List.mem_cons.mp h with h' | h'
        · exact absurd (by rw [← h'] : p.1 = k) hp
        · exact h'
      have := ih (List.nodup_cons.mp hn2).2 hmem
      have hstep : mapDelete (p :: m) k = p :: mapDelete m k := by
        simp [mapDelete, hp]
      rw [hstep, List.length_cons, List.length_cons]
      omega

theorem length_mergeStep_ge (now : Nat) (acc : MergeAcc) (c : TrackedLoop)
    (hn : NodupKeys acc.byId) :
    acc.byId.length ≤ (mergeStep now acc c).byId.length := by
  cases h0 : mapGet acc.byId c.id with
  | some e =>
    rw [mergeStep_update now acc c e h0]
    have hhas : mapHas acc.byId c.id = true := by simp [mapHas, h0]
    rw [length_mapSet_of_has _ _ _ hhas]
  | none =>
    have hnot : mapHas acc.byId c.id = false := by simp [mapHas, h0]
    by_cases hp : c.id = "(primary)"
    · cases hr : findRekey c.directory acc.byId with
      | some q =>
        rw [mergeStep_rekey now acc c q h0 hp hr]
        obtain ⟨hqmem, -, hqpre, -⟩ := findRekey_spec _ _ _ hr
        have hqc : ¬q.1 = c.id := by
          intro he
          rw [he, hp] at hqpre
          have : strStartsWith "(primary)" "primary-" = false := by decide
          rw [this] at hqpre
          exact Bool.noConfusion hqpre
        have hdel : mapHas (mapDelete acc.byId q.1) c.id = false := by
          have : mapGet (mapDelete acc.byId q.1) c.id = none := by
            rw [mapGet_mapDelete_ne acc.byId q.1 c.id (fun e => hqc e.symm)]
            exact h0
          simp [mapHas, this]
        rw [length_mapSet_of_not_has _ _ _ hdel]
        have := length_mapDelete_add_one acc.byId q.1 q.2 hn hqmem
        omega
      | none =>
        rw [mergeStep_insert_primary now acc c h0 hp hr]
        rw [length_mapSet_of_not_has _ _ _ hnot]
        omega
    · rw [mergeStep_insert now acc c h0 hp]
      rw [length_mapSet_of_not_has _ _ _ hnot]
      omega

theorem foldl_mergeStep_length_ge (now : Nat) (cs : List TrackedLoop) :
    ∀ acc : MergeAcc, NodupKeys acc.byId →
      acc.byId.length ≤ ((cs.foldl (mergeStep now) acc).byId).length := by
  induction cs with
  | nil =>
    intro acc _
    exact Nat.le_refl _
  | cons c cs ih =>
    intro acc hn
    exact Nat.le_trans (length_mergeStep_ge now acc c hn)
      (ih _ (nodupKeys_mergeStep now acc c hn))

theorem length_buildMap_of_nodup (l : List TrackedLoop)
    (hnd : (l.map (fun r => r.id)).Nodup) : (buildMap l).length = l.length := by
  induction l using List.reverseRecOn with
  | nil => rfl
  | append_singleton l r ih =>
    have hb : buildMap (l ++ [r]) = mapSet (buildMap l) r.id r := by
      simp [buildMap, List.foldl_append]
    have hnotin : r.id ∉ l.map (fun r => r.id) := by
      have := (List.nodup_append.mp (by simpa using hnd)).2.2
      intro hmem
      exact this hmem (by simp)
    have hnot : mapHas (buildMap l) r.id = false := by
      cases hhh : mapHas (buildMap l) r.id with
      | false => rfl
      | true => exact absurd ((mapHas_buildMap l r.id).mp hhh) hnotin
    rw [hb, length_mapSet_of_not_has _ _ _ hnot,
      ih (List.Nodup.sublist (by simp) hnd)]
    simp

theorem length_markRemoved (seen : List String) (m : LoopMap) :
    (markRemoved seen m).length = m.length :=
  List.length_map ..

/-! ## Lemmas about the poll gather loop -/

theorem gatherPolled_all_fail (exec : String → ExecOutcome) (dirs : List String)
    (h : ∀ d ∈ dirs, ∃ c p, exec d = ExecOutcome.ret c p ∧ c ≠ 0) :
    gatherPolled exec dirs = Except.ok (false, []) := by
  induction dirs with
  | nil => rfl
  | cons d ds ih =>
    obtain ⟨c, p, hd, hc⟩ := h d (List.mem_cons_self d ds)
    have step : gatherPolled exec (d :: ds) = gatherPolled exec ds := by
      simp only [gatherPolled, List.foldl_cons, hd]
      simp [hc]
    rw [step]
    exact ih (fun d' hd' => h d' (List.mem_cons_of_mem _ hd'))

theorem gatherPolled_aux_ok (exec : String → ExecOutcome) :
    ∀ (dirs : List String) (a0 : Bool) (l0 : List TrackedLoop),
      (∀ d ∈ dirs, ∀ msg, exec d ≠ ExecOutcome.thrown msg) →
      ∃ b all,
        dirs.foldl
          (fun acc d => match acc with
            | Except.error m => Except.error m
            | Except.ok (anySuccess, all) =>
              match exec d with
              | ExecOutcome.thrown msg => Except.error msg
              | ExecOutcome.ret code parsed =>
                if code = 0 then
                  match parsed with
                  | some loops => Except.ok (true, all ++ loops.map (tagDirectory d))
                  | none => Except.ok (true, all)
                else Except.ok (anySuccess, all))
          (Except.ok (a0, l0)) = Except.ok (b, all) ∧
        (a0 = true → b = true) ∧
        ((∃ d ∈ dirs, ∃ p, exec d = ExecOutcome.ret 0 p) → b = true) := by
  intro dirs
  induction dirs with
  | nil =>
    intro a0 l0 _
    exact ⟨a0, l0, rfl, fun h => h, fun h => by simp at h⟩
  | cons d ds ih =>
    intro a0 l0 hnt
    have hnt' : ∀ d' ∈ ds, ∀ msg, exec d' ≠ ExecOutcome.thrown msg :=
      fun d' hd' => hnt d' (List.mem_cons_of_mem _ hd')
    cases he : exec d with
    | thrown msg => exact absurd he (hnt d (List.mem_cons_self d ds) msg)
    | ret code parsed =>
      by_cases hcode : code = 0
      · cases parsed with
        | some loops =>
          obtain ⟨b, all, heq, hmono, _⟩ := ih true (l0 ++ loops.map (tagDirectory d)) hnt'
          refine ⟨b, all, ?_, fun _ => hmono rfl, fun _ => hmono rfl⟩
          simp only [List.foldl_cons, he]
          simp only [hcode, if_pos rfl]
          exact heq
        | none =>
          obtain ⟨b, all, heq, hmono, _⟩ := ih true l0 hnt'
          refine ⟨b, all, ?_, fun _ => hmono rfl, fun _ => hmono rfl⟩
          simp only [List.foldl_cons, he]
          simp only [hcode, if_pos rfl]
          exact heq
      · obtain ⟨b, all, heq, hmono, hsucc⟩ := ih a0 l0 hnt'
        refine ⟨b, all, ?_, hmono, ?_⟩
        · simp only [List.foldl_cons, he]
          simp only [if_neg hcode]
          exact heq
        · rintro ⟨d', hd', p, hp⟩
          rcases List.mem_cons.mp hd' with rfl | hd'
          · rw [he] at hp
            cases hp
            exact absurd rfl hcode
          · exact hsucc ⟨d', hd', p, hp⟩

theorem gatherPolled_success (exec : String → ExecOutcome) (dirs : List String)
    (hnothrow : ∀ d ∈ dirs, ∀ msg, exec d ≠ ExecOutcome.thrown msg)
    (hsucc : ∃ d ∈ dirs, ∃ p, exec d = ExecOutcome.ret 0 p) :
    ∃ all, gatherPolled exec dirs = Except.ok (true, all) := by
  obtain ⟨b, all, heq, _, himp⟩ := gatherPolled_aux_ok exec dirs false [] hnothrow
  exact ⟨all, by rw [gatherPolled, heq, himp hsucc]⟩

/-! ## Claim theorems: poll scheduler -/

/-- C6: when every queried poll source fails, `poll` increments the
consecutive-failure counter, records the last error, returns `none`, and
leaves the collection (and focus) untouched; when some queried source
succeeds (and none throws), the counter resets to zero and the last error
clears. -/
theorem poll_failure_accounting (st : LoopManagerState) (cwd : String) (now : Nat)
    (exec : String → ExecOutcome) (hflight : st.pollInFlight = false) :
    ((∀ d ∈ pollDirs st cwd, ∃ c p, exec d = ExecOutcome.ret c p ∧ c ≠ 0) →
       (poll st cwd now exec).1.loops = st.loops ∧
       (poll st cwd now exec).1.focusedIndex = st.focusedIndex ∧
       (poll st cwd now exec).1.consecutivePollFailures = st.consecutivePollFailures + 1 ∧
       (poll st cwd now exec).1.lastPollError = some "all poll attempts failed" ∧
       (poll st cwd now exec).2 = none) ∧
    ((∀ d ∈ pollDirs st cwd, ∀ msg, exec d ≠ ExecOutcome.thrown msg) →
     (∃ d ∈ pollDirs st cwd, ∃ p, exec d = ExecOutcome.ret 0 p) →
       (poll st cwd now exec).1.consecutivePollFailures = 0 ∧
       (poll st cwd now exec).1.lastPollError = none) := by
  constructor
  · intro hfail
    have hg := gatherPolled_all_fail exec (pollDirs st cwd) hfail
    simp [poll, hflight, hg]
  · intro hnothrow hsucc
    obtain ⟨all, hg⟩ := gatherPolled_success exec (pollDirs st cwd) hnothrow hsucc
    simp [poll, hflight, hg]

/-- Witness for C6 at a concrete state and oracle. -/
theorem poll_failure_accounting_witness :
    (({ loops := [], focusedIndex := 0, pollInFlight := false,
        consecutivePollFailures := 2, lastPollError := none } :
          LoopManagerState).pollInFlight = false) ∧
    ((poll { loops := [], focusedIndex := 0, pollInFlight := false,
             consecutivePollFailures := 2, lastPollError := none }
        "/w" 0 (fun _ => ExecOutcome.ret 1 none)).1.consecutivePollFailures = 2 + 1) := by
  refine ⟨rfl, ?_⟩
  exact ((poll_failure_accounting _ "/w" 0 (fun _ => ExecOutcome.ret 1 none) rfl).1
    (fun d _ => ⟨1, none, rfl, by decide⟩)).2.2.1

/-- C7: at most one poll is logically in flight: a `poll` call arriving
while one is outstanding returns `none` immediately with the state
entirely unchanged, and a completed poll always leaves the in-flight flag
cleared (the `finally` block runs on every exit path). -/
theorem poll_in_flight_guard (st : LoopManagerState) (cwd : String) (now : Nat)
    (exec : String → ExecOutcome) :
    (st.pollInFlight = true → poll st cwd now exec = (st, none)) ∧
    (st.pollInFlight = false → (poll st cwd now exec).1.pollInFlight = false) := by
  constructor
  · intro h
    simp [poll, h]
  · intro h
    simp only [poll, h, Bool.false_eq_true, if_false]

/-! ## Claim theorems: mergePolled removal safety -/

/-- C1: a merge never newly sets `removed = true` on a `"tool"`-sourced
record (a removed tool record in the result is exactly a tool record that
was already removed before the merge and left untouched); every removed
record in the result was unobserved in this pass; every non-tool record
whose identity the pass omits ends marked `removed = true` but is still in
the collection; and no record is physically deleted: the collection never
shrinks and every previous identity survives, except that a tool record
with a `primary-` identity may survive rekeyed under `"(primary)"`. -/
theorem mergePolled_removal_safety (st : LoopManagerState) (now : Nat)
    (polled : List TrackedLoop)
    (hnd : (st.loops.map (fun l => l.id)).Nodup) :
    (∀ r ∈ (mergePolled st now polled).loops,
       r.source = LoopSource.tool → r.removed = true →
       ∃ r0 ∈ st.loops, r0.id = r.id ∧ r0.source = LoopSource.tool ∧
         r0.removed = true) ∧
    (∀ r ∈ (mergePolled st now polled).loops, r.removed = true →
       r.id ∉ polled.map (fun c => c.id)) ∧
    (∀ r0 ∈ st.loops, r0.source ≠ LoopSource.tool →
       r0.id ∉ polled.map (fun c => c.id) →
       ∃ r ∈ (mergePolled st now polled).loops, r.id = r0.id ∧
         r.removed = true) ∧
    st.loops.length ≤ (mergePolled st now polled).loops.length ∧
    (∀ r0 ∈ st.loops,
       r0.id ∈ (mergePolled st now polled).loops.map (fun l => l.id) ∨
       (r0.source = LoopSource.tool ∧ strStartsWith r0.id "primary-" = true)) := by
  have hMM : mergedMap st now polled =
      markRemoved (mergeFold st now polled).seen (mergeFold st now polled).byId := rfl
  have hseen : ∀ k, k ∈ (mergeFold st now polled).seen ↔
      k ∈ polled.map (fun c => c.id) := by
    intro k
    have := foldl_mergeStep_seen now polled
      { byId := buildMap st.loops, seen := [] } k
    simpa [mergeFold] using this
  have hkeyid : KeyIdMap (mergeFold st now polled).byId :=
    foldl_mergeStep_keyId now polled _ (keyId_buildMap st.loops)
  have hInv3 : ∀ k v, mapGet (mergeFold st now polled).byId k = some v →
      k ∈ (mergeFold st now polled).seen → v.removed = false := by
    intro k v h1 h2
    refine foldl_mergeStep_seen_removed now polled _ ?_ k v h1 h2
    intro k' v' _ hk'
    simp at hk'
  refine ⟨?_, ?_, ?_, ?_, ?_⟩
  · -- (i) no tool record newly removed
    intro r hr hsrc hrem
    obtain ⟨i, hi, hgi⟩ := (mem_mergePolled_loops st now polled r).mp hr
    rw [hMM, mapGet_markRemoved] at hgi
    cases hv0 : mapGet (mergeFold st now polled).byId i with
    | none =>
      rw [hv0] at hgi
      simp at hgi
    | some v0 =>
      rw [hv0] at hgi
      simp only [Option.map_some'] at hgi
      injection hgi with hgi
      by_cases hc : v0.id ∉ (mergeFold st now polled).seen ∧
          v0.source ≠ LoopSource.tool
      · exfalso
        rw [if_pos hc] at hgi
        apply hc.2
        rw [← hgi] at hsrc
        exact hsrc
      · rw [if_neg hc] at hgi
        subst hgi
        have hbind : (i, v0) ∈ (mergeFold st now polled).byId :=
          mapGet_mem _ _ _ hv0
        have hbind0 : (i, v0) ∈ buildMap st.loops :=
          foldl_mergeStep_removed_mem now polled _ (i, v0) hbind hrem
        obtain ⟨hmem, -⟩ := mem_buildMap st.loops (i, v0) hbind0
        exact ⟨v0, hmem, rfl, hsrc, hrem⟩
  · -- (ii) removed records were unobserved
    intro r hr hrem hmemids
    obtain ⟨i, hi, hgi⟩ := (mem_mergePolled_loops st now polled r).mp hr
    rw [hMM, mapGet_markRemoved] at hgi
    cases hv0 : mapGet (mergeFold st now polled).byId i with
    | none =>
      rw [hv0] at hgi
      simp at hgi
    | some v0 =>
      rw [hv0] at hgi
      simp only [Option.map_some'] at hgi
      injection hgi with hgi
      by_cases hc : v0.id ∉ (mergeFold st now polled).seen ∧
          v0.source ≠ LoopSource.tool
      · apply hc.1
        have hidv : v0.id = r.id := by
          rw [← hgi, if_pos hc]
        rw [hidv]
        exact (hseen r.id).mpr hmemids
      · rw [if_neg hc] at hgi
        subst hgi
        have hidv : v0.id = i := hkeyid (i, v0) (mapGet_mem _ _ _ hv0)
        have hiseen : i ∈ (mergeFold st now polled).seen := by
          refine (hseen i).mpr ?_
          rw [← hidv]
          exact hmemids
        have := hInv3 i v0 hv0 hiseen
        rw [this] at hrem
        exact Bool.noConfusion hrem
  · -- (iii) unobserved non-tool records are marked removed, and kept
    intro r0 hr0 hsrc0 hnot
    have hget0 : mapGet (buildMap st.loops) r0.id = some r0 :=
      mapGet_buildMap_of_nodup st.loops hnd r0 hr0
    obtain ⟨v', hv', -, -, -, hunt⟩ :=
      foldl_mergeStep_track now polled { byId := buildMap st.loops, seen := [] }
        r0.id r0 (nodupKeys_buildMap st.loops) hget0 (Or.inl hsrc0)
    have hv'eq : v' = r0 := hunt hnot
    rw [hv'eq] at hv'
    have hvF : mapGet (mergeFold st now polled).byId r0.id = some r0 := hv'
    have hnotseen : r0.id ∉ (mergeFold st now polled).seen :=
      fun hs => hnot ((hseen r0.id).mp hs)
    have hgetM : mapGet (mergedMap st now polled) r0.id =
        some { r0 with removed := true } := by
      rw [hMM, mapGet_markRemoved, hvF]
      simp only [Option.map_some']
      rw [if_pos ⟨hnotseen, hsrc0⟩]
    have hprev : r0.id ∈ (st.loops.map (fun l => l.id)).filter
        (fun i => mapHas (mergedMap st now polled) i) := by
      refine List.mem_filter.mpr ⟨List.mem_map.mpr ⟨r0, hr0, rfl⟩, ?_⟩
      simp [mapHas, hgetM]
    have hids : r0.id ∈ mergedIds st now polled :=
      (mem_orderedIdsOf _ _ _).mpr (Or.inl hprev)
    exact ⟨{ r0 with removed := true },
      (mem_mergePolled_loops st now polled _).mpr ⟨r0.id, hids, hgetM⟩, rfl, rfl⟩
  · -- (iv) length never shrinks
    have hkeys_sub : ∀ k ∈ mapKeys (mergedMap st now polled),
        k ∈ mergedIds st now polled :=
      fun k hk => (mem_orderedIdsOf _ _ k).mpr (Or.inr hk)
    have hnodids : (mergedIds st now polled).Nodup :=
      nodup_orderedIdsOf _ _ (List.Nodup.filter _ hnd)
    have h1 : st.loops.length = (buildMap st.loops).length :=
      (length_buildMap_of_nodup st.loops hnd).symm
    have h2 : (buildMap st.loops).length ≤ ((mergeFold st now polled).byId).length := by
      have := foldl_mergeStep_length_ge now polled
        { byId := buildMap st.loops, seen := [] } (nodupKeys_buildMap st.loops)
      simpa [mergeFold] using this
    have h3 : (mergedMap st now polled).length = ((mergeFold st now polled).byId).length := by
      rw [hMM]
      exact length_markRemoved _ _
    have h4 : (mapKeys (mergedMap st now polled)).length ≤
        (mergedIds st now polled).length :=
      List.Subperm.length_le
        (List.Nodup.subperm (nodupKeys_mergedMap st now polled) hkeys_sub)
    have h5 : (mergePolled st now polled).loops.length =
        (mergedIds st now polled).length := by
      rw [mergePolled_loops]
      exact (filterMap_mapGet_ids _ (keyId_mergedMap st now polled) _
        (fun i hi => mapHas_of_mem_mergedIds st now polled i hi)).2
    have h6 : (mapKeys (mergedMap st now polled)).length =
        (mergedMap st now polled).length := by
      simp [mapKeys]
    omega
  · -- (v) every previous identity survives unless rekeyed away
    intro r0 hr0
    by_cases hcase : r0.source = LoopSource.tool ∧
        strStartsWith r0.id "primary-" = true
    · exact Or.inr hcase
    · refine Or.inl ?_
      have hprot : r0.source ≠ LoopSource.tool ∨
          strStartsWith r0.id "primary-" = false := by
        by_cases h1 : r0.source = LoopSource.tool
        · refine Or.inr ?_
          cases h2 : strStartsWith r0.id "primary-" with
          | false => rfl
          | true => exact absurd ⟨h1, h2⟩ hcase
        · exact Or.inl h1
      have hget0 : mapGet (buildMap st.loops) r0.id = some r0 :=
        mapGet_buildMap_of_nodup st.loops hnd r0 hr0
      obtain ⟨v', hv', -, -, -, -⟩ :=
        foldl_mergeStep_track now polled { byId := buildMap st.loops, seen := [] }
          r0.id r0 (nodupKeys_buildMap st.loops) hget0 hprot
      have hvF : mapGet (mergeFold st now polled).byId r0.id = some v' := hv'
      have hhas : mapHas (mergedMap st now polled) r0.id = true := by
        rw [hMM]
        simp [mapHas, mapGet_markRemoved, hvF]
      have hids : r0.id ∈ mergedIds st now polled :=
        (mem_orderedIdsOf _ _ _).mpr (Or.inl (List.mem_filter.mpr
          ⟨List.mem_map.mpr ⟨r0, hr0, rfl⟩, hhas⟩))
      rw [mergePolled_loops_map_id]
      exact hids

theorem isAbsPath_elim (o : Option String) (ho : isAbsPath o = true) :
    ∃ d, o = some d ∧ d ≠ "" ∧ strStartsWith d "/" = true := by
  cases o with
  | none => simp [isAbsPath] at ho
  | some s =>
    rw [isAbsPath, Bool.and_eq_true] at ho
    exact ⟨s, rfl, by simpa using ho.1, ho.2⟩

/-- The directory resolved by the per-element body of `parseLoopsJson` is
`none` or a genuine absolute path. -/
theorem parseRawLoop_directory_abs (raw : RawLoop) (now : Nat) (t : TrackedLoop)
    (h : parseRawLoop raw now = some t) :
    t.directory = none ∨
      ∃ d, t.directory = some d ∧ d ≠ "" ∧ strStartsWith d "/" = true := by
  rw [parseRawLoop] at h
  cases hid : (match asStr raw.loop_id with
               | some s => some s
               | none => asStr raw.id) with
  | none =>
    rw [hid] at h
    exact absurd h (by simp)
  | some id =>
    rw [hid] at h
    simp only [Option.some.injEq] at h
    subst h
    by_cases h1 : isAbsPath (asStr raw.directory) = true
    · rcases isAbsPath_elim _ h1 with ⟨d, hd, hne, habs⟩
      refine Or.inr ⟨d, ?_, hne, habs⟩
      simp [h1]
      exact hd
    · by_cases h2 : isAbsPath (asStr raw.path) = true
      · rcases isAbsPath_elim _ h2 with ⟨d, hd, hne, habs⟩
        refine Or.inr ⟨d, ?_, hne, habs⟩
        simp [h1, h2]
        exact hd
      · by_cases h3 : isAbsPath (asStr raw.workspace) = true
        · rcases isAbsPath_elim _ h3 with ⟨d, hd, hne, habs⟩
          refine Or.inr ⟨d, ?_, hne, habs⟩
          simp [h1, h2, h3]
          exact hd
        · by_cases h4 : isAbsPath (asStr raw.worktree_path) = true
          · rcases isAbsPath_elim _ h4 with ⟨d, hd, hne, habs⟩
            refine Or.inr ⟨d, ?_, hne, habs⟩
            simp [h1, h2, h3, h4]
            exact hd
          · refine Or.inl ?_
            simp [h1, h2, h3, h4]

/-- C5: an existing record's real absolute-path directory is never
overwritten by same-identity candidates whose directory is empty or a
parenthesized placeholder: the update rule keeps the existing directory
whenever the candidate's fails the guard, the record emerging from a full
merge still carries the original absolute path, and the identity resolver
itself only ever produces `none` or an absolute path as a directory. -/
theorem mergePolled_directory_preservation (st : LoopManagerState) (now : Nat)
    (polled : List TrackedLoop) (r0 : TrackedLoop) (d : String)
    (hnd : (st.loops.map (fun l => l.id)).Nodup)
    (hr0 : r0 ∈ st.loops) (hdir : r0.directory = some d)
    (habs : strStartsWith d "/" = true)
    (hnorekey : ¬(r0.source = LoopSource.tool ∧
        strStartsWith r0.id "primary-" = true))
    (hbadc : ∀ c ∈ polled, c.id = r0.id → goodDir c.directory = false) :
    (∃ r ∈ (mergePolled st now polled).loops, r.id = r0.id ∧
       r.directory = some d) ∧
    (∀ ex c : TrackedLoop, ∀ now2 : Nat, goodDir c.directory = false →
       (mergeRecord ex c now2).directory = ex.directory) ∧
    (∀ raw : RawLoop, ∀ now3 : Nat, ∀ t : TrackedLoop,
       parseRawLoop raw now3 = some t →
       t.directory = none ∨
         ∃ dd, t.directory = some dd ∧ dd ≠ "" ∧ strStartsWith dd "/" = true) := by
  refine ⟨?_, fun ex c now2 hb => mergeRecord_directory_bad ex c now2 hb,
    fun raw now3 t h => parseRawLoop_directory_abs raw now3 t h⟩
  have hMM : mergedMap st now polled =
      markRemoved (mergeFold st now polled).seen (mergeFold st now polled).byId := rfl
  have hprot : r0.source ≠ LoopSource.tool ∨
      strStartsWith r0.id "primary-" = false := by
    by_cases h1 : r0.source = LoopSource.tool
    · refine Or.inr ?_
      cases h2 : strStartsWith r0.id "primary-" with
      | false => rfl
      | true => exact absurd ⟨h1, h2⟩ hnorekey
    · exact Or.inl h1
  have hget0 : mapGet (buildMap st.loops) r0.id = some r0 :=
    mapGet_buildMap_of_nodup st.loops hnd r0 hr0
  obtain ⟨v', hv', -, -, hdir', -⟩ :=
    foldl_mergeStep_track now polled { byId := buildMap st.loops, seen := [] }
      r0.id r0 (nodupKeys_buildMap st.loops) hget0 hprot
  have hv'dir : v'.directory = some d := by
    rw [hdir' hbadc, hdir]
  have hvF : mapGet (mergeFold st now polled).byId r0.id = some v' := hv'
  have hgetM : ∃ r, mapGet (mergedMap st now polled) r0.id = some r ∧
      r.directory = some d := by
    rw [hMM, mapGet_markRemoved, hvF]
    by_cases hc : v'.id ∉ (mergeFold st now polled).seen ∧
        v'.source ≠ LoopSource.tool
    · exact ⟨{ v' with removed := true }, by simp [hc], hv'dir⟩
    · exact ⟨v', by simp [hc], hv'dir⟩
  obtain ⟨r, hgetr, hrdir⟩ := hgetM
  have hhas : mapHas (mergedMap st now polled) r0.id = true := by
    simp [mapHas, hgetr]
  have hids : r0.id ∈ mergedIds st now polled :=
    (mem_orderedIdsOf _ _ _).mpr (Or.inl (List.mem_filter.mpr
      ⟨List.mem_map.mpr ⟨r0, hr0, rfl⟩, hhas⟩))
  have hrid : r.id = r0.id :=
    keyId_mergedMap st now polled (r0.id, r) (mapGet_mem _ _ _ hgetr)
  exact ⟨r, (mem_mergePolled_loops st now polled r).mpr ⟨r0.id, hids, hgetr⟩,
    hrid, hrdir⟩

/-- Witness for C5 at a concrete state and candidate. -/
theorem mergePolled_directory_preservation_witness :
    ((((⟨[{ id := "a", pid := none, directory := some "/p", worktree := none,
            status := "running", iteration := 0, maxIterations := 0, hat := none,
            elapsedSecs := 0, backend := none, source := LoopSource.discovered,
            ptySession := none, removed := false, lastSeenAt := 0 }], 0, false, 0,
          none⟩ : LoopManagerState)).loops.map (fun l => l.id)).Nodup) ∧
    (∃ r ∈ (mergePolled
        (⟨[{ id := "a", pid := none, directory := some "/p", worktree := none,
             status := "running", iteration := 0, maxIterations := 0, hat := none,
             elapsedSecs := 0, backend := none, source := LoopSource.discovered,
             ptySession := none, removed := false, lastSeenAt := 0 }], 0, false, 0,
           none⟩ : LoopManagerState) 9
        [{ id := "a", pid := none, directory := some "(in-place)", worktree := none,
           status := "running", iteration := 1, maxIterations := 0, hat := none,
           elapsedSecs := 5, backend := none, source := LoopSource.discovered,
           ptySession := none, removed := false, lastSeenAt := 9 }]).loops,
      r.id = "a" ∧ r.directory = some "/p") := by
  refine ⟨by decide, ?_⟩
  exact (mergePolled_directory_preservation _ 9 _
    { id := "a", pid := none, directory := some "/p", worktree := none,
      status := "running", iteration := 0, maxIterations := 0, hat := none,
      elapsedSecs := 0, backend := none, source := LoopSource.discovered,
      ptySession := none, removed := false, lastSeenAt := 0 }
    "/p" (by decide) (by decide) rfl (by decide) (by decide)
    (by intro c hc hid
        simp only [List.mem_singleton] at hc
        subst hc
        decide)).1

theorem findRekey_eq_some (dir : Option String) (m : LoopMap)
    (p0 : String × TrackedLoop) (hmem : p0 ∈ m)
    (hpred : p0.2.source = LoopSource.tool ∧ strStartsWith p0.1 "primary-" ∧
      p0.2.directory = dir)
    (huniq : ∀ p ∈ m, (p.2.source = LoopSource.tool ∧
      strStartsWith p.1 "primary-" ∧ p.2.directory = dir) → p = p0) :
    findRekey dir m = some p0 := by
  induction m with
  | nil => simp at hmem
  | cons q m ih =>
    by_cases hq : q.2.source = LoopSource.tool ∧ strStartsWith q.1 "primary-" ∧
        q.2.directory = dir
    · have hq0 : q = p0 := huniq q (List.mem_cons_self q m) hq
      rw [findRekey, if_pos hq, hq0]
    · have hmem' : p0 ∈ m := by
        rcases List.mem_cons.mp hmem with h' | h'
        · exact absurd (h' ▸ hpred) hq
        · exact h'
      rw [findRekey, if_neg hq]
      exact ih hmem' (fun p hp hpred' => huniq p (List.mem_cons_of_mem _ hp) hpred')

/-- C2: with a tool-started record matching the `primary-…` pattern in
directory `d`, no record keyed `"(primary)"`, and a poll candidate
`{id: "(primary)", directory: d}`, the merge rekeys that record: the
result holds exactly one record keyed `"(primary)"`, still tool-sourced
and with the original ptySession handle, and the old identity is gone; and
merging the candidate twice in the same pass still performs only one
rekey (same outcome). -/
theorem mergePolled_rekey_primary (st : LoopManagerState) (now : Nat)
    (c r0 : TrackedLoop) (d : String)
    (hnd : (st.loops.map (fun l => l.id)).Nodup)
    (hr0 : r0 ∈ st.loops)
    (hr0tool : r0.source = LoopSource.tool)
    (hr0pat : strStartsWith r0.id "primary-" = true)
    (hr0dir : r0.directory = some d)
    (huniq : ∀ r ∈ st.loops, r.source = LoopSource.tool →
       strStartsWith r.id "primary-" = true → r.directory = some d → r = r0)
    (hnoprim : ∀ r ∈ st.loops, r.id ≠ "(primary)")
    (hcid : c.id = "(primary)") (hcdir : c.directory = some d) :
    (∃ m ∈ (mergePolled st now [c]).loops, m.id = "(primary)" ∧
       m.source = LoopSource.tool ∧ m.ptySession = r0.ptySession) ∧
    ((mergePolled st now [c]).loops.map (fun l => l.id)).count "(primary)" = 1 ∧
    r0.id ∉ (mergePolled st now [c]).loops.map (fun l => l.id) ∧
    (∃ m ∈ (mergePolled st now [c, c]).loops, m.id = "(primary)" ∧
       m.source = LoopSource.tool ∧ m.ptySession = r0.ptySession) ∧
    ((mergePolled st now [c, c]).loops.map (fun l => l.id)).count "(primary)" = 1 ∧
    r0.id ∉ (mergePolled st now [c, c]).loops.map (fun l => l.id) := by
  have hM0 : mapGet (buildMap st.loops) r0.id = some r0 :=
    mapGet_buildMap_of_nodup st.loops hnd r0 hr0
  have hr0nprim : r0.id ≠ "(primary)" := hnoprim r0 hr0
  -- the candidate's id has no binding in the initial map
  have hnone : mapGet (buildMap st.loops) c.id = none := by
    cases hv : mapGet (buildMap st.loops) c.id with
    | none => rfl
    | some v =>
      exfalso
      obtain ⟨hvmem, hvid⟩ := mem_buildMap st.loops (c.id, v) (mapGet_mem _ _ _ hv)
      exact hnoprim v hvmem (by rw [← hvid, hcid])
  -- the rekey search finds exactly the binding of r0
  have hfind : findRekey c.directory (buildMap st.loops) = some (r0.id, r0) := by
    refine findRekey_eq_some c.directory (buildMap st.loops) (r0.id, r0)
      (mapGet_mem _ _ _ hM0) ⟨hr0tool, hr0pat, by rw [hcdir, hr0dir]⟩ ?_
    intro p hp hpred
    obtain ⟨hpmem, hpid⟩ := mem_buildMap st.loops p hp
    have hp2 : p.2 = r0 := by
      refine huniq p.2 hpmem hpred.1 ?_ ?_
      · rw [← hpid]
        exact hpred.2.1
      · rw [hpred.2.2, hcdir]
    have hp1 : p.1 = r0.id := by rw [hpid, hp2]
    have hpeta : p = (p.1, p.2) := rfl
    rw [hpeta, hp1, hp2]
  -- the single merge step
  have hstep1 : mergeStep now { byId := buildMap st.loops, seen := [] } c =
      { byId := (mapSet (mapDelete (buildMap st.loops) r0.id) c.id
          (mergeRecord r0 c now))
        seen := seenAdd [] c.id } :=
    mergeStep_rekey now _ c (r0.id, r0) hnone hcid hfind
  -- the merged record
  have hmrec : (mergeRecord r0 c now).source = LoopSource.tool ∧
      (mergeRecord r0 c now).ptySession = r0.ptySession ∧
      (mergeRecord r0 c now).id = "(primary)" := by
    refine ⟨?_, mergeRecord_ptySession r0 c now, ?_⟩
    · rw [mergeRecord_source, hr0tool]
    · rw [mergeRecord_id, hcid]
  -- after the rekey step, the binding at "(primary)" is the merged record
  have hget1 : mapGet (mapSet (mapDelete (buildMap st.loops) r0.id) c.id
      (mergeRecord r0 c now)) c.id = some (mergeRecord r0 c now) :=
    mapGet_mapSet_self ..
  -- and the old identity is gone
  have hgone1 : mapGet (mapSet (mapDelete (buildMap st.loops) r0.id) c.id
      (mergeRecord r0 c now)) r0.id = none := by
    rw [mapGet_mapSet_ne _ c.id r0.id _ (fun e => hr0nprim (e.trans hcid)),
      mapGet_mapDelete_self]
  -- seen contains the candidate id
  have hseen1 : c.id ∈ seenAdd [] c.id := by
    rw [mem_seenAdd]
    exact Or.inr rfl
  -- generic final-state facts, shared by the one- and two-candidate runs
  have hfinal : ∀ polled : List TrackedLoop,
      (mergeFold st now polled).byId = mapSet (mapDelete (buildMap st.loops) r0.id)
        c.id (mergeRecord r0 c now) →
      (∀ k, k ∈ (mergeFold st now polled).seen ↔ k ∈ polled.map (fun x => x.id)) →
      c.id ∈ polled.map (fun x => x.id) →
      (∃ m ∈ (mergePolled st now polled).loops, m.id = "(primary)" ∧
         m.source = LoopSource.tool ∧ m.ptySession = r0.ptySession) ∧
      ((mergePolled st now polled).loops.map (fun l => l.id)).count "(primary)" = 1 ∧
      r0.id ∉ (mergePolled st now polled).loops.map (fun l => l.id) := by
    intro polled hfold hseen hcin
    have hMM : mergedMap st now polled =
        markRemoved (mergeFold st now polled).seen (mergeFold st now polled).byId := rfl
    have hcseen : c.id ∈ (mergeFold st now polled).seen := (hseen c.id).mpr hcin
    have hgetM : mapGet (mergedMap st now polled) c.id =
        some (mergeRecord r0 c now) := by
      rw [hMM, mapGet_markRemoved, hfold, hget1]
      simp only [Option.map_some']
      rw [if_neg]
      intro hcon
      apply hcon.1
      rw [mergeRecord_id]
      exact hcseen
    have hgoneM : mapGet (mergedMap st now polled) r0.id = none := by
      rw [hMM, mapGet_markRemoved, hfold, hgone1]
      rfl
    have hhasM : mapHas (mergedMap st now polled) c.id = true := by
      simp [mapHas, hgetM]
    have hprimids : c.id ∈ mergedIds st now polled := by
      refine (mem_orderedIdsOf _ _ _).mpr (Or.inr ?_)
      exact (mapHas_iff_mem_keys _ _).mp hhasM
    have hnodids : (mergedIds st now polled).Nodup :=
      nodup_orderedIdsOf _ _ (List.Nodup.filter _ hnd)
    refine ⟨⟨mergeRecord r0 c now,
        (mem_mergePolled_loops st now polled _).mpr ⟨c.id, hprimids, hgetM⟩,
        hmrec.2.2, hmrec.1, hmrec.2.1⟩, ?_, ?_⟩
    · rw [mergePolled_loops_map_id]
      have : c.id = "(primary)" := hcid
      rw [← this]
      exact List.count_eq_one_of_mem hnodids hprimids
    · rw [mergePolled_loops_map_id]
      intro hmem
      rcases (mem_orderedIdsOf _ _ _).mp hmem with h1 | h2
      · have := (List.mem_filter.mp h1).2
        rw [show mapHas (mergedMap st now polled) r0.id = false from by
          simp [mapHas, hgoneM]] at this
        exact Bool.noConfusion this
      · have := (mapHas_iff_mem_keys _ _).mpr h2
        rw [show mapHas (mergedMap st now polled) r0.id = false from by
          simp [mapHas, hgoneM]] at this
        exact Bool.noConfusion this
  -- one candidate
  have hres1 := hfinal [c] (by
      show (List.foldl (mergeStep now) { byId := buildMap st.loops, seen := [] }
        [c]).byId = _
      rw [List.foldl_cons, List.foldl_nil, hstep1])
    (fun k => by
      have := foldl_mergeStep_seen now [c] { byId := buildMap st.loops, seen := [] } k
      simpa [mergeFold] using this)
    (by simp)
  -- two candidates: the second occurrence finds the rekeyed binding and
  -- updates it in place, changing nothing relevant
  have hstep2 : mergeStep now { byId := (mapSet (mapDelete (buildMap st.loops) r0.id)
        c.id (mergeRecord r0 c now)), seen := seenAdd [] c.id } c =
      { byId := (mapSet (mapSet (mapDelete (buildMap st.loops) r0.id) c.id
          (mergeRecord r0 c now)) c.id (mergeRecord (mergeRecord r0 c now) c now))
        seen := seenAdd (seenAdd [] c.id) c.id } :=
    mergeStep_update now _ c (mergeRecord r0 c now) hget1
  have hfold2 : (mergeFold st now [c, c]).byId = mapSet (mapDelete
      (buildMap st.loops) r0.id) c.id (mergeRecord (mergeRecord r0 c now) c now) := by
    show (List.foldl (mergeStep now) { byId := buildMap st.loops, seen := [] }
      [c, c]).byId = _
    rw [List.foldl_cons, List.foldl_cons, List.foldl_nil, hstep1, hstep2]
    have : mapSet (mapSet (mapDelete (buildMap st.loops) r0.id) c.id
        (mergeRecord r0 c now)) c.id (mergeRecord (mergeRecord r0 c now) c now) =
        mapSet (mapDelete (buildMap st.loops) r0.id) c.id
          (mergeRecord (mergeRecord r0 c now) c now) := by
      apply mapSet_mapSet_self
    rw [this]
  have hmm2 : mergeRecord (mergeRecord r0 c now) c now = mergeRecord r0 c now := by
    apply mergeRecord_self_absorb
  have hres2 := hfinal [c, c] (by rw [hfold2, hmm2])
    (fun k => by
      have := foldl_mergeStep_seen now [c, c] { byId := buildMap st.loops, seen := [] } k
      simpa [mergeFold] using this)
    (by simp)
  exact ⟨hres1.1, hres1.2.1, hres1.2.2, hres2.1, hres2.2.1, hres2.2.2⟩

/-- Witness for C2 at a concrete state and candidate. -/
theorem mergePolled_rekey_primary_witness :
    (((⟨[{ id := "primary-x", pid := some 1, directory := some "/p", worktree := none,
           status := "running", iteration := 0, maxIterations := 0, hat := none,
           elapsedSecs := 0, backend := none, source := LoopSource.tool,
           ptySession := some 7, removed := false, lastSeenAt := 0 }], 0, false, 0,
         none⟩ : LoopManagerState).loops.map (fun l => l.id)).Nodup) ∧
    (∃ m ∈ (mergePolled
        (⟨[{ id := "primary-x", pid := some 1, directory := some "/p", worktree := none,
             status := "running", iteration := 0, maxIterations := 0, hat := none,
             elapsedSecs := 0, backend := none, source := LoopSource.tool,
             ptySession := some 7, removed := false, lastSeenAt := 0 }], 0, false, 0,
           none⟩ : LoopManagerState) 5
        [{ id := "(primary)", pid := none, directory := some "/p", worktree := none,
           status := "running", iteration := 2, maxIterations := 0, hat := none,
           elapsedSecs := 9, backend := none, source := LoopSource.discovered,
           ptySession := none, removed := false, lastSeenAt := 5 }]).loops,
      m.id = "(primary)" ∧ m.source = LoopSource.tool ∧ m.ptySession = some 7) := by
  refine ⟨by decide, ?_⟩
  exact (mergePolled_rekey_primary _ 5 _
    { id := "primary-x", pid := some 1, directory := some "/p", worktree := none,
      status := "running", iteration := 0, maxIterations := 0, hat := none,
      elapsedSecs := 0, backend := none, source := LoopSource.tool,
      ptySession := some 7, removed := false, lastSeenAt := 0 }
    "/p" (by decide) (by decide) rfl (by decide) rfl
    (by intro r hr h1 h2 h3
        simp only [List.mem_singleton] at hr
        exact hr)
    (by intro r hr
        simp only [List.mem_singleton] at hr
        subst hr
        decide)
    rfl rfl).1

/-- Witness for C1 at a concrete state and poll input. -/
theorem mergePolled_removal_safety_witness :
    (((⟨[{ id := "t", pid := none, directory := some "/p", worktree := none,
           status := "running", iteration := 0, maxIterations := 0, hat := none,
           elapsedSecs := 0, backend := none, source := LoopSource.tool,
           ptySession := some 1, removed := false, lastSeenAt := 0 },
         { id := "a", pid := none, directory := some "/p", worktree := none,
           status := "running", iteration := 0, maxIterations := 0, hat := none,
           elapsedSecs := 0, backend := none, source := LoopSource.discovered,
           ptySession := none, removed := false, lastSeenAt := 0 }], 0, false, 0,
         none⟩ : LoopManagerState).loops.map (fun l => l.id)).Nodup) ∧
    (⟨[{ id := "t", pid := none, directory := some "/p", worktree := none,
         status := "running", iteration := 0, maxIterations := 0, hat := none,
         elapsedSecs := 0, backend := none, source := LoopSource.tool,
         ptySession := some 1, removed := false, lastSeenAt := 0 },
       { id := "a", pid := none, directory := some "/p", worktree := none,
         status := "running", iteration := 0, maxIterations := 0, hat := none,
         elapsedSecs := 0, backend := none, source := LoopSource.discovered,
         ptySession := none, removed := false, lastSeenAt := 0 }], 0, false, 0,
       none⟩ : LoopManagerState).loops.length ≤
      (mergePolled
        (⟨[{ id := "t", pid := none, directory := some "/p", worktree := none,
             status := "running", iteration := 0, maxIterations := 0, hat := none,
             elapsedSecs := 0, backend := none, source := LoopSource.tool,
             ptySession := some 1, removed := false, lastSeenAt := 0 },
           { id := "a", pid := none, directory := some "/p", worktree := none,
             status := "running", iteration := 0, maxIterations := 0, hat := none,
             elapsedSecs := 0, backend := none, source := LoopSource.discovered,
             ptySession := none, removed := false, lastSeenAt := 0 }], 0, false, 0,
           none⟩ : LoopManagerState) 5 []).loops.length := by
  refine ⟨by decide, ?_⟩
  exact (mergePolled_removal_safety _ 5 [] (by decide)).2.2.2.1

/-! ## Claim theorems: upsertToolLoop, cycleFocus, overlay confirmation -/

/-- C10: `upsertToolLoop` on an already-present identity replaces the
stored record wholesale: status back to `"running"`, iteration,
maxIterations, elapsedSecs reset to 0, hat and backend to `none`, source
`"tool"`, the supplied ptySession, `removed = false` and a fresh
`lastSeenAt` (any values a prior poll merge filled in are discarded). -/
theorem upsertToolLoop_overwrites_existing (st : LoopManagerState) (now : Nat)
    (inp : ToolLoopInput) (idx : Nat)
    (h : st.loops.findIdx? (fun l => l.id == inp.id) = some idx) :
    (upsertToolLoop st now inp).loops.length = st.loops.length ∧
    (upsertToolLoop st now inp).loops[idx]? =
      some { id := inp.id, pid := some inp.pid, directory := some inp.directory,
             worktree := inp.worktree, status := "running", iteration := 0,
             maxIterations := 0, hat := none, elapsedSecs := 0, backend := none,
             source := LoopSource.tool, ptySession := inp.ptySession,
             removed := false, lastSeenAt := now } := by
  obtain ⟨hlt, -, -⟩ := List.findIdx?_eq_some_iff_getElem.mp h
  unfold upsertToolLoop
  rw [h]
  refine ⟨List.length_set .., ?_⟩
  have hget := @List.getElem?_set_self _ st.loops idx (toolLoopRecord inp now) hlt
  simpa [toolLoopRecord] using hget

/-- Witness for C10 at a concrete state. -/
theorem upsertToolLoop_overwrites_existing_witness :
    (([({ id := "x", pid := some 1, directory := some "/p", worktree := none,
          status := "completed", iteration := 4, maxIterations := 9, hat := some "h",
          elapsedSecs := 30, backend := some "b", source := LoopSource.discovered,
          ptySession := none, removed := true, lastSeenAt := 3 } : TrackedLoop)].findIdx?
        (fun l => l.id == "x") = some 0) ∧
    (upsertToolLoop
        { loops := [{ id := "x", pid := some 1, directory := some "/p", worktree := none,
                      status := "completed", iteration := 4, maxIterations := 9, hat := some "h",
                      elapsedSecs := 30, backend := some "b", source := LoopSource.discovered,
                      ptySession := none, removed := true, lastSeenAt := 3 }],
          focusedIndex := 0, pollInFlight := false,
          consecutivePollFailures := 0, lastPollError := none }
        7 { id := "x", pid := 42, directory := "/p", worktree := none,
            ptySession := some 5 }).loops[0]? =
      some { id := "x", pid := some 42, directory := some "/p", worktree := none,
             status := "running", iteration := 0, maxIterations := 0, hat := none,
             elapsedSecs := 0, backend := none, source := LoopSource.tool,
             ptySession := some 5, removed := false, lastSeenAt := 7 }) := by
  refine ⟨by decide, ?_⟩
  exact (upsertToolLoop_overwrites_existing _ 7 _ 0 (by decide)).2

/-- Closed form of `cycleFocus` on a non-empty active set. -/
theorem cycleFocus_pos (st : LoopManagerState) (d : Int)
    (h : (activeLoops st).length ≠ 0) :
    cycleFocus st d =
      ({ st with focusedIndex := (Int.tmod
           (st.focusedIndex + d + ((activeLoops st).length : Int))
           ((activeLoops st).length : Int)) },
       if Int.tmod (st.focusedIndex + d + ((activeLoops st).length : Int))
            ((activeLoops st).length : Int) < 0 then none
       else (activeLoops st)[(Int.tmod
              (st.focusedIndex + d + ((activeLoops st).length : Int))
              ((activeLoops st).length : Int)).toNat]?) := by
  simp [cycleFocus, h]

/-- Closed form of `getFocused` on a non-empty active set. -/
theorem getFocused_pos (st : LoopManagerState)
    (h : (activeLoops st).length ≠ 0) :
    getFocused st =
      ({ st with focusedIndex := (min (max st.focusedIndex 0)
           (((activeLoops st).length : Int) - 1)) },
       (activeLoops st)[(min (max st.focusedIndex 0)
          (((activeLoops st).length : Int) - 1)).toNat]?) := by
  simp [getFocused, h]

/-- C8 (amended): on an empty active set, `cycleFocus` in either direction
resets the cursor to 0 and returns `none` (it is a total function, so it
never throws); and for an active set of size ≥ 1, `cycle(+1)` followed by
`cycle(-1)` returns focus to the record that was focused at the start,
provided the starting cursor lies inside `[0, activeCount)` (for an
out-of-range cursor the code's un-clamped modular arithmetic lands on a
different record — see the counterexample). -/
theorem cycleFocus_empty_and_roundtrip (st : LoopManagerState) :
    ((activeLoops st).length = 0 →
      ∀ d : Int, cycleFocus st d = ({ st with focusedIndex := 0 }, none)) ∧
    (1 ≤ (activeLoops st).length →
      0 ≤ st.focusedIndex → st.focusedIndex < ((activeLoops st).length : Int) →
      (cycleFocus (cycleFocus st 1).1 (-1)).2 = (getFocused st).2) := by
  constructor
  · intro h d
    simp [cycleFocus, h]
  · intro hlen hc0 hcn
    set n : Int := ((activeLoops st).length : Int) with hn
    set c : Int := st.focusedIndex with hcdef
    have hnpos : 0 < n := by simpa [hn] using hlen
    have hlen0 : (activeLoops st).length ≠ 0 := by omega
    set fi1 : Int := Int.tmod (c + 1 + n) n with hfi1def
    have e1 : fi1 = (c + 1 + n) % n := by
      rw [hfi1def, Int.tmod_eq_emod (by omega) (by omega)]
    have hfi1nn : 0 ≤ fi1 := by
      rw [e1]
      exact Int.emod_nonneg _ (by omega)
    have hfi1lt : fi1 < n := by
      rw [e1]
      exact Int.emod_lt_of_pos _ hnpos
    have step1 : (cycleFocus st 1).1 = { st with focusedIndex := fi1 } := by
      rw [cycleFocus_pos st 1 hlen0]
    have hlen1 : (activeLoops { st with focusedIndex := fi1 }).length ≠ 0 := hlen0
    have step2 := cycleFocus_pos { st with focusedIndex := fi1 } (-1) hlen1
    have hres : (cycleFocus (cycleFocus st 1).1 (-1)).2 =
        (if Int.tmod (fi1 + (-1) + n) n < 0 then none
         else (activeLoops st)[(Int.tmod (fi1 + (-1) + n) n).toNat]?) := by
      rw [step1, step2]
      rfl
    set fi2 : Int := Int.tmod (fi1 + (-1) + n) n with hfi2def
    have e2 : fi2 = (fi1 + (-1) + n) % n := by
      rw [hfi2def, Int.tmod_eq_emod (by omega) (by omega)]
    have hfi2c : fi2 = c := by
      have hmod1 : (c + 1 + n) % n = (c + 1) % n := by
        have : c + 1 + n = c + 1 + n * 1 := by ring
        rw [this, Int.add_mul_emod_self_left]
      by_cases hlt : c + 1 < n
      · have hfe : fi1 = c + 1 := by
          rw [e1, hmod1, Int.emod_eq_of_lt (by omega) hlt]
        have harg1 : c + 1 + -1 + n = c + n := by ring
        have : fi2 = (c + n) % n := by
          rw [e2, hfe, harg1]
        rw [this]
        have hcn' : c + n = c + n * 1 := by ring
        rw [hcn', Int.add_mul_emod_self_left, Int.emod_eq_of_lt hc0 hcn]
      · have hceq : c + 1 = n := by omega
        have hfe : fi1 = 0 := by
          rw [e1, hmod1, hceq, Int.emod_self]
        have harg2 : (0 : Int) + -1 + n = n - 1 := by ring
        have : fi2 = (n - 1) % n := by
          rw [e2, hfe, harg2]
        rw [this, Int.emod_eq_of_lt (by omega) (by omega)]
        omega
    have hidx : min (max st.focusedIndex 0) (((activeLoops st).length : Int) - 1) = c := by
      omega
    have hgf : (getFocused st).2 = (activeLoops st)[c.toNat]? := by
      rw [getFocused_pos st hlen0, hidx]
    rw [hres, if_neg (by omega), hfi2c, hgf]

/-- Counterexample to C8 as stated: with two active records and the
(out-of-range) starting cursor 2, the record focused at the start is the
second one, but `cycle(+1)` then `cycle(-1)` lands on the first. -/
theorem cycleFocus_roundtrip_counterexample :
    1 ≤ (activeLoops
      { loops := [{ id := "a", pid := none, directory := none, worktree := none,
                    status := "running", iteration := 0, maxIterations := 0, hat := none,
                    elapsedSecs := 0, backend := none, source := LoopSource.discovered,
                    ptySession := none, removed := false, lastSeenAt := 0 },
                  { id := "b", pid := none, directory := none, worktree := none,
                    status := "running", iteration := 0, maxIterations := 0, hat := none,
                    elapsedSecs := 0, backend := none, source := LoopSource.discovered,
                    ptySession := none, removed := false, lastSeenAt := 0 }],
        focusedIndex := 2, pollInFlight := false,
        consecutivePollFailures := 0, lastPollError := none }).length ∧
    (cycleFocus (cycleFocus
      { loops := [{ id := "a", pid := none, directory := none, worktree := none,
                    status := "running", iteration := 0, maxIterations := 0, hat := none,
                    elapsedSecs := 0, backend := none, source := LoopSource.discovered,
                    ptySession := none, removed := false, lastSeenAt := 0 },
                  { id := "b", pid := none, directory := none, worktree := none,
                    status := "running", iteration := 0, maxIterations := 0, hat := none,
                    elapsedSecs := 0, backend := none, source := LoopSource.discovered,
                    ptySession := none, removed := false, lastSeenAt := 0 }],
        focusedIndex := 2, pollInFlight := false,
        consecutivePollFailures := 0, lastPollError := none } 1).1 (-1)).2 ≠
    (getFocused
      { loops := [{ id := "a", pid := none, directory := none, worktree := none,
                    status := "running", iteration := 0, maxIterations := 0, hat := none,
                    elapsedSecs := 0, backend := none, source := LoopSource.discovered,
                    ptySession := none, removed := false, lastSeenAt := 0 },
                  { id := "b", pid := none, directory := none, worktree := none,
                    status := "running", iteration := 0, maxIterations := 0, hat := none,
                    elapsedSecs := 0, backend := none, source := LoopSource.discovered,
                    ptySession := none, removed := false, lastSeenAt := 0 }],
        focusedIndex := 2, pollInFlight := false,
        consecutivePollFailures := 0, lastPollError := none }).2 := by
  constructor
  · decide
  · decide

/-- Witness for the amended C8 at a concrete in-range state. -/
theorem cycleFocus_empty_and_roundtrip_witness :
    (1 ≤ (activeLoops
      { loops := [{ id := "a", pid := none, directory := none, worktree := none,
                    status := "running", iteration := 0, maxIterations := 0, hat := none,
                    elapsedSecs := 0, backend := none, source := LoopSource.discovered,
                    ptySession := none, removed := false, lastSeenAt := 0 },
                  { id := "b", pid := none, directory := none, worktree := none,
                    status := "running", iteration := 0, maxIterations := 0, hat := none,
                    elapsedSecs := 0, backend := none, source := LoopSource.discovered,
                    ptySession := none, removed := false, lastSeenAt := 0 }],
        focusedIndex := 1, pollInFlight := false,
        consecutivePollFailures := 0, lastPollError := none }).length) ∧
    (cycleFocus (cycleFocus
      { loops := [{ id := "a", pid := none, directory := none, worktree := none,
                    status := "running", iteration := 0, maxIterations := 0, hat := none,
                    elapsedSecs := 0, backend := none, source := LoopSource.discovered,
                    ptySession := none, removed := false, lastSeenAt := 0 },
                  { id := "b", pid := none, directory := none, worktree := none,
                    status := "running", iteration := 0, maxIterations := 0, hat := none,
                    elapsedSecs := 0, backend := none, source := LoopSource.discovered,
                    ptySession := none, removed := false, lastSeenAt := 0 }],
        focusedIndex := 1, pollInFlight := false,
        consecutivePollFailures := 0, lastPollError := none } 1).1 (-1)).2 =
    (getFocused
      { loops := [{ id := "a", pid := none, directory := none, worktree := none,
                    status := "running", iteration := 0, maxIterations := 0, hat := none,
                    elapsedSecs := 0, backend := none, source := LoopSource.discovered,
                    ptySession := none, removed := false, lastSeenAt := 0 },
                  { id := "b", pid := none, directory := none, worktree := none,
                    status := "running", iteration := 0, maxIterations := 0, hat := none,
                    elapsedSecs := 0, backend := none, source := LoopSource.discovered,
                    ptySession := none, removed := false, lastSeenAt := 0 }],
        focusedIndex := 1, pollInFlight := false,
        consecutivePollFailures := 0, lastPollError := none }).2 := by
  refine ⟨by decide, ?_⟩
  exact (cycleFocus_empty_and_roundtrip _).2 (by decide) (by decide) (by decide)

/-- C9 (amended): while a confirmation is pending, an affirmative input
(`y`/`Y`) fires the stored external command and clears the pending state;
the explicit negative (`n`/`N`) or Escape clears the pending state without
executing any external command; every other input executes nothing and is
ignored (the confirmation stays pending — the claim's assertion that it
clears is refuted by the counterexample). -/
theorem handleInput_confirm_protocol (readIdFile : String → Option String)
    (focused : Option TrackedLoop) (ov : OverlayState) (c : ConfirmState) (data : String)
    (hc : ov.confirm = some c) :
    ((data = "y" ∨ data = "Y") →
      (handleInput readIdFile focused ov data).1.confirm = none ∧
      Effect.runAction c.label c.command ∈ (handleInput readIdFile focused ov data).2) ∧
    ((data = "n" ∨ data = "N" ∨ data = keyEscape) →
      (handleInput readIdFile focused ov data).1.confirm = none ∧
      ∀ e ∈ (handleInput readIdFile focused ov data).2, isExternalCommand e = false) ∧
    (data ≠ "y" → data ≠ "Y" → data ≠ "n" → data ≠ "N" → data ≠ keyEscape →
      handleInput readIdFile focused ov data = (ov, [])) := by
  have hy : ("y" : String) ≠ keyEscape := by decide
  have hY : ("Y" : String) ≠ keyEscape := by decide
  have hn : ("n" : String) ≠ keyEscape := by decide
  have hN : ("N" : String) ≠ keyEscape := by decide
  refine ⟨?_, ?_, ?_⟩
  · rintro (rfl | rfl) <;> simp [handleInput, hc, fireAction, hy, hY]
  · rintro (rfl | rfl | rfl)
    · exact ⟨by simp [handleInput, hc, hn],
        by simp [handleInput, hc, hn, isExternalCommand]⟩
    · exact ⟨by simp [handleInput, hc, hN],
        by simp [handleInput, hc, hN, isExternalCommand]⟩
    · exact ⟨by simp [handleInput, hc],
        by simp [handleInput, hc, isExternalCommand]⟩
  · intro h1 h2 h3 h4 h5
    simp [handleInput, hc, h1, h2, h3, h4, h5]

/-- Counterexample to C9 as stated: with a pending `stop` confirmation,
the input `"x"` (neither affirmative nor negative nor Escape) does not
clear the pending state — the code ignores it and the confirmation stays
pending, where the claim requires any non-affirmative input to clear it. -/
theorem handleInput_confirm_counterexample :
    ({ view := ViewMode.pty, textViewTitle := none, textViewLines := [],
       textScroll := 0, textLoading := false,
       confirm := some { action := "stop", command := ["loops", "stop"], label := "Stop" },
       footerMessage := none, hasSession := false, closed := false } :
         OverlayState).confirm ≠ none ∧
    (handleInput (fun _ => none) none
      { view := ViewMode.pty, textViewTitle := none, textViewLines := [],
        textScroll := 0, textLoading := false,
        confirm := some { action := "stop", command := ["loops", "stop"], label := "Stop" },
        footerMessage := none, hasSession := false, closed := false }
      "x").1.confirm ≠ none := by
  constructor
  · decide
  · decide

/-- Witness for the amended C9 at a concrete pending confirmation. -/
theorem handleInput_confirm_protocol_witness :
    (({ view := ViewMode.pty, textViewTitle := none, textViewLines := [],
        textScroll := 0, textLoading := false,
        confirm := some { action := "stop", command := ["loops", "stop"], label := "Stop" },
        footerMessage := none, hasSession := false, closed := false } :
          OverlayState).confirm =
      some { action := "stop", command := ["loops", "stop"], label := "Stop" }) ∧
    (handleInput (fun _ => none) none
      { view := ViewMode.pty, textViewTitle := none, textViewLines := [],
        textScroll := 0, textLoading := false,
        confirm := some { action := "stop", command := ["loops", "stop"], label := "Stop" },
        footerMessage := none, hasSession := false, closed := false }
      "y").1.confirm = none := by
  refine ⟨rfl, ?_⟩
  exact ((handleInput_confirm_protocol (fun _ => none) none _ _ "y" rfl).1 (Or.inl rfl)).1

/-- Witness for C7 at a concrete busy state. -/
theorem poll_in_flight_guard_witness :
    (({ loops := [], focusedIndex := 0, pollInFlight := true,
        consecutivePollFailures := 0, lastPollError := none } :
          LoopManagerState).pollInFlight = true) ∧
    poll { loops := [], focusedIndex := 0, pollInFlight := true,
           consecutivePollFailures := 0, lastPollError := none }
      "/w" 0 (fun _ => ExecOutcome.ret 0 (some [])) =
      ({ loops := [], focusedIndex := 0, pollInFlight := true,
         consecutivePollFailures := 0, lastPollError := none }, none) :=
  ⟨rfl, (poll_in_flight_guard _ "/w" 0 (fun _ => ExecOutcome.ret 0 (some []))).1 rfl⟩

/-! ## Ordering lemmas (claim C4) -/

theorem orderedIdsOf_append_singleton (l : List String) (o : List String) (x : String) :
    orderedIdsOf (l ++ [x]) o =
      if x ∈ orderedIdsOf l o then orderedIdsOf l o else orderedIdsOf l o ++ [x] := by
  simp [orderedIdsOf, List.foldl_append]

theorem orderedIdsOf_sublist_append (l : List String) (o : List String) (x : String) :
    (orderedIdsOf l o).Sublist (orderedIdsOf (l ++ [x]) o) := by
  rw [orderedIdsOf_append_singleton]
  by_cases h : x ∈ orderedIdsOf l o
  · rw [if_pos h]
  · rw [if_neg h]
    exact List.sublist_append_left _ _

theorem orderedIdsOf_decomp (nextIds : List String) :
    ∀ o : List String, ∃ extra : List String,
      orderedIdsOf nextIds o = o ++ extra ∧
      extra.Sublist (nextIds.filter (fun i => decide (i ∉ o))) := by
  induction nextIds with
  | nil =>
    intro o
    exact ⟨[], by simp [orderedIdsOf], by simp⟩
  | cons i is ih =>
    intro o
    unfold orderedIdsOf
    rw [List.foldl_cons]
    by_cases hio : i ∈ o
    · rw [if_pos hio]
      obtain ⟨e, he, hs⟩ := ih o
      refine ⟨e, ?_, ?_⟩
      · rw [show is.foldl (fun os i => if i ∈ os then os else os ++ [i]) o =
            orderedIdsOf is o from rfl, he]
      · have hfc : (i :: is).filter (fun j => decide (j ∉ o)) =
            is.filter (fun j => decide (j ∉ o)) := by
          simp [List.filter_cons, hio]
        rw [hfc]
        exact hs
    · rw [if_neg hio]
      obtain ⟨e, he, hs⟩ := ih (o ++ [i])
      refine ⟨i :: e, ?_, ?_⟩
      · rw [show is.foldl (fun os i => if i ∈ os then os else os ++ [i]) (o ++ [i]) =
            orderedIdsOf is (o ++ [i]) from rfl, he]
        simp
      · have hfc : (i :: is).filter (fun j => decide (j ∉ o)) =
            i :: is.filter (fun j => decide (j ∉ o)) := by
          simp [List.filter_cons, hio]
        rw [hfc]
        refine List.Sublist.cons₂ i ?_
        refine hs.trans ?_
        refine List.monotone_filter_right is ?_
        intro a ha
        simp only [decide_eq_true_eq] at ha ⊢
        intro hmem
        exact ha (List.mem_append_left _ hmem)

theorem orderedIdsOf_eq_self_of_subset (nextIds : List String) :
    ∀ o : List String, (∀ i ∈ nextIds, i ∈ o) → orderedIdsOf nextIds o = o := by
  induction nextIds with
  | nil =>
    intro o _
    rfl
  | cons i is ih =>
    intro o h
    unfold orderedIdsOf
    rw [List.foldl_cons, if_pos (h i (List.mem_cons_self i is))]
    exact ih o (fun j hj => h j (List.mem_cons_of_mem _ hj))

theorem mapKeys_append_singleton (m : LoopMap) (p : String × TrackedLoop) :
    mapKeys (m ++ [p]) = mapKeys m ++ [p.1] := by
  simp [mapKeys]

theorem mem_map_id_of_append (cs : List TrackedLoop) (c : TrackedLoop) (k : String)
    (hk : k ∈ (cs ++ [c]).map (fun c => c.id)) (hkc : ¬k = c.id) :
    k ∈ cs.map (fun c => c.id) := by
  simp only [List.map_append, List.map_cons, List.map_nil, List.mem_append,
    List.mem_cons, List.not_mem_nil, or_false] at hk
  rcases hk with hk | hk
  · exact hk
  · exact absurd hk hkc

/-- The key-structure invariant of the merge loop: the map's keys are a
surviving subsequence of the initial keys followed by appended keys, and the
appended keys that were not initially present appear in first-occurrence
order of the candidate sequence. -/
theorem foldl_mergeStep_keys_structure (now : Nat) (M0 : LoopMap) (hn0 : NodupKeys M0) :
    ∀ polled : List TrackedLoop,
      (∀ c ∈ polled, c.source = LoopSource.discovered) →
      ∃ kept fresh : List String,
        mapKeys ((polled.foldl (mergeStep now) { byId := M0, seen := [] }).byId) =
          kept ++ fresh ∧
        kept.Sublist (mapKeys M0) ∧
        (fresh.filter (fun i => decide (i ∉ mapKeys M0))).Sublist
          (orderedIdsOf (polled.map (fun c => c.id)) []) ∧
        (∀ k, k ∈ polled.map (fun c => c.id) → k ∉ mapKeys M0 →
          mapHas ((polled.foldl (mergeStep now) { byId := M0, seen := [] }).byId) k
            = true) ∧
        (∀ k v,
          mapGet ((polled.foldl (mergeStep now) { byId := M0, seen := [] }).byId) k
            = some v →
          v.source = LoopSource.tool → strStartsWith k "primary-" = true → k ∈ kept) := by
  intro polled
  induction polled using List.reverseRecOn with
  | nil =>
    intro _
    refine ⟨mapKeys M0, [], by simp, List.Sublist.refl _, by simp, by simp, ?_⟩
    intro k v hget _ _
    have hget' : mapGet M0 k = some v := hget
    have hh : mapHas M0 k = true := by simp [mapHas, hget']
    exact (mapHas_iff_mem_keys M0 k).mp hh
  | append_singleton cs c ih =>
    intro hdisc
    obtain ⟨kept, fresh, h1, h2, h3, h4, h5⟩ :=
      ih (fun c' hc' => hdisc c' (List.mem_append_left _ hc'))
    set A : MergeAcc := cs.foldl (mergeStep now) { byId := M0, seen := [] } with hA
    have hnA : NodupKeys A.byId := by
      rw [hA]
      exact foldl_mergeStep_nodupKeys now cs _ hn0
    have hndA : (kept ++ fresh).Nodup := by
      rw [← h1]
      exact hnA
    have hdisj : ∀ a ∈ kept, a ∉ fresh := (List.nodup_append.mp hndA).2.2
    have hfold : ((cs ++ [c]).foldl (mergeStep now) { byId := M0, seen := [] }) =
        mergeStep now A c := by
      rw [List.foldl_append, List.foldl_cons, List.foldl_nil, hA]
    rw [hfold]
    have hcdisc : c.source = LoopSource.discovered :=
      hdisc c (List.mem_append_right _ (List.mem_cons_self c []))
    cases h0 : mapGet A.byId c.id with
    | some e =>
      have hstep := mergeStep_update now A c e h0
      refine ⟨kept, fresh, ?_, h2, ?_, ?_, ?_⟩
      · rw [hstep]
        show mapKeys (mapSet A.byId c.id (mergeRecord e c now)) = kept ++ fresh
        rw [mapKeys_mapSet_of_has A.byId c.id _ (by simp [mapHas, h0])]
        exact h1
      · refine h3.trans ?_
        simp only [List.map_append, List.map_cons, List.map_nil]
        exact orderedIdsOf_sublist_append _ _ _
      · intro k hk hkM0
        rw [hstep]
        show mapHas (mapSet A.byId c.id (mergeRecord e c now)) k = true
        rw [mapHas_mapSet]
        by_cases hkc : k = c.id
        · rw [if_pos hkc]
        · rw [if_neg hkc]
          exact h4 k (mem_map_id_of_append cs c k hk hkc) hkM0
      · intro k v hget htool hks
        rw [hstep] at hget
        have hget' : mapGet (mapSet A.byId c.id (mergeRecord e c now)) k = some v :=
          hget
        by_cases hkc : k = c.id
        · rw [hkc, mapGet_mapSet_self] at hget'
          injection hget' with hv
          have he : e.source = LoopSource.tool := by
            rw [← mergeRecord_source e c now, hv]
            exact htool
          have hks' : strStartsWith c.id "primary-" = true := by
            rw [← hkc]
            exact hks
          rw [hkc]
          exact h5 c.id e h0 he hks'
        · rw [mapGet_mapSet_ne A.byId c.id k _ hkc] at hget'
          exact h5 k v hget' htool hks
    | none =>
      by_cases hp : c.id = "(primary)"
      · cases hr : findRekey c.directory A.byId with
        | some q =>
          obtain ⟨hqmem, hqtool, hqpre, hqdir⟩ := findRekey_spec _ _ _ hr
          have hqget : mapGet A.byId q.1 = some q.2 :=
            mapGet_of_mem_nodup A.byId q.1 q.2 hnA hqmem
          have hqkept : q.1 ∈ kept := h5 q.1 q.2 hqget hqtool hqpre
          have hq1M0 : q.1 ∈ mapKeys M0 := h2.subset hqkept
          have hcne : ¬c.id = q.1 := by
            rw [hp]
            intro e
            rw [← e] at hqpre
            exact absurd hqpre (by decide)
          have hgetdel : mapGet (mapDelete A.byId q.1) c.id = none := by
            rw [mapGet_mapDelete_ne A.byId q.1 c.id hcne]
            exact h0
          have hset : mapSet (mapDelete A.byId q.1) c.id (mergeRecord q.2 c now) =
              mapDelete A.byId q.1 ++ [(c.id, mergeRecord q.2 c now)] :=
            mapSet_eq_append_of_not_has _ _ _ (by simp [mapHas, hgetdel])
          have hfr : fresh.filter (fun i => i ≠ q.1) = fresh := by
            rw [List.filter_eq_self]
            intro a ha
            simp only [ne_eq, decide_not, Bool.not_eq_eq_eq_not, Bool.not_true,
              decide_eq_false_iff_not]
            intro e
            exact hdisj q.1 hqkept (e ▸ ha)
          refine ⟨kept.filter (fun j => j ≠ q.1), fresh ++ [c.id], ?_, ?_, ?_, ?_, ?_⟩
          · rw [mergeStep_rekey now A c q h0 hp hr]
            show mapKeys (mapSet (mapDelete A.byId q.1) c.id (mergeRecord q.2 c now)) =
              _ ++ (fresh ++ [c.id])
            rw [hset, mapKeys_append_singleton, mapKeys_mapDelete, h1,
              List.filter_append, hfr, List.append_assoc]
          · exact (List.filter_sublist kept).trans h2
          · rw [List.filter_append]
            by_cases hcM0 : c.id ∈ mapKeys M0
            · have hnilf : [c.id].filter (fun i => decide (i ∉ mapKeys M0)) = [] := by
                simp [hcM0]
              rw [hnilf, List.append_nil]
              refine h3.trans ?_
              simp only [List.map_append, List.map_cons, List.map_nil]
              exact orderedIdsOf_sublist_append _ _ _
            · have honef : [c.id].filter (fun i => decide (i ∉ mapKeys M0)) = [c.id] := by
                simp [hcM0]
              rw [honef]
              have hnotin : c.id ∉ cs.map (fun c => c.id) := by
                intro hmem
                have hh := h4 c.id hmem hcM0
                rw [mapHas, h0] at hh
                simp at hh
              have hoi : orderedIdsOf (cs.map (fun c => c.id) ++ [c.id]) [] =
                  orderedIdsOf (cs.map (fun c => c.id)) [] ++ [c.id] := by
                rw [orderedIdsOf_append_singleton, if_neg ?hne]
                case hne =>
                  intro hmem
                  rcases (mem_orderedIdsOf _ _ _).mp hmem with hmem' | hmem'
                  · simp at hmem'
                  · exact hnotin hmem'
              simp only [List.map_append, List.map_cons, List.map_nil]
              rw [hoi]
              exact List.Sublist.append h3 (List.Sublist.refl _)
          · intro k hk hkM0
            rw [mergeStep_rekey now A c q h0 hp hr]
            show mapHas (mapSet (mapDelete A.byId q.1) c.id (mergeRecord q.2 c now)) k
              = true
            rw [mapHas_mapSet]
            by_cases hkc : k = c.id
            · rw [if_pos hkc]
            · rw [if_neg hkc]
              have hkq : k ≠ q.1 := fun e => hkM0 (e ▸ hq1M0)
              show (mapGet (mapDelete A.byId q.1) k).isSome = true
              rw [mapGet_mapDelete_ne A.byId q.1 k hkq]
              exact h4 k (mem_map_id_of_append cs c k hk hkc) hkM0
          · intro k v hget htool hks
            rw [mergeStep_rekey now A c q h0 hp hr] at hget
            have hget' :
                mapGet (mapSet (mapDelete A.byId q.1) c.id (mergeRecord q.2 c now)) k
                  = some v := hget
            by_cases hkc : k = c.id
            · rw [hkc, hp] at hks
              exact absurd hks (by decide)
            · rw [mapGet_mapSet_ne _ c.id k _ hkc] at hget'
              by_cases hkq : k = q.1
              · rw [hkq, mapGet_mapDelete_self] at hget'
                exact Option.noConfusion hget'
              · rw [mapGet_mapDelete_ne A.byId q.1 k hkq] at hget'
                refine List.mem_filter.mpr ⟨h5 k v hget' htool hks, ?_⟩
                simp [hkq]
        | none =>
          have hstep := mergeStep_insert_primary now A c h0 hp hr
          have hset : mapSet A.byId c.id (insertRecord c now) =
              A.byId ++ [(c.id, insertRecord c now)] :=
            mapSet_eq_append_of_not_has _ _ _ (by simp [mapHas, h0])
          refine ⟨kept, fresh ++ [c.id], ?_, h2, ?_, ?_, ?_⟩
          · rw [hstep]
            show mapKeys (mapSet A.byId c.id (insertRecord c now)) =
              kept ++ (fresh ++ [c.id])
            rw [hset, mapKeys_append_singleton, h1, List.append_assoc]
          · rw [List.filter_append]
            by_cases hcM0 : c.id ∈ mapKeys M0
            · have hnilf : [c.id].filter (fun i => decide (i ∉ mapKeys M0)) = [] := by
                simp [hcM0]
              rw [hnilf, List.append_nil]
              refine h3.trans ?_
              simp only [List.map_append, List.map_cons, List.map_nil]
              exact orderedIdsOf_sublist_append _ _ _
            · have honef : [c.id].filter (fun i => decide (i ∉ mapKeys M0)) = [c.id] := by
                simp [hcM0]
              rw [honef]
              have hnotin : c.id ∉ cs.map (fun c => c.id) := by
                intro hmem
                have hh := h4 c.id hmem hcM0
                rw [mapHas, h0] at hh
                simp at hh
              have hoi : orderedIdsOf (cs.map (fun c => c.id) ++ [c.id]) [] =
                  orderedIdsOf (cs.map (fun c => c.id)) [] ++ [c.id] := by
                rw [orderedIdsOf_append_singleton, if_neg ?hne]
                case hne =>
                  intro hmem
                  rcases (mem_orderedIdsOf _ _ _).mp hmem with hmem' | hmem'
                  · simp at hmem'
                  · exact hnotin hmem'
              simp only [List.map_append, List.map_cons, List.map_nil]
              rw [hoi]
              exact List.Sublist.append h3 (List.Sublist.refl _)
          · intro k hk hkM0
            rw [hstep]
            show mapHas (mapSet A.byId c.id (insertRecord c now)) k = true
            rw [mapHas_mapSet]
            by_cases hkc : k = c.id
            · rw [if_pos hkc]
            · rw [if_neg hkc]
              exact h4 k (mem_map_id_of_append cs c k hk hkc) hkM0
          · intro k v hget htool hks
            rw [hstep] at hget
            have hget' : mapGet (mapSet A.byId c.id (insertRecord c now)) k = some v :=
              hget
            by_cases hkc : k = c.id
            · rw [hkc, mapGet_mapSet_self] at hget'
              injection hget' with hv
              have hct : c.source = LoopSource.tool := by
                rw [show c.source = (insertRecord c now).source from rfl, hv]
                exact htool
              rw [hcdisc] at hct
              exact LoopSource.noConfusion hct
            · rw [mapGet_mapSet_ne A.byId c.id k _ hkc] at hget'
              exact h5 k v hget' htool hks
      · have hstep := mergeStep_insert now A c h0 hp
        have hset : mapSet A.byId c.id (insertRecord c now) =
            A.byId ++ [(c.id, insertRecord c now)] :=
          mapSet_eq_append_of_not_has _ _ _ (by simp [mapHas, h0])
        refine ⟨kept, fresh ++ [c.id], ?_, h2, ?_, ?_, ?_⟩
        · rw [hstep]
          show mapKeys (mapSet A.byId c.id (insertRecord c now)) =
            kept ++ (fresh ++ [c.id])
          rw [hset, mapKeys_append_singleton, h1, List.append_assoc]
        · rw [List.filter_append]
          by_cases hcM0 : c.id ∈ mapKeys M0
          · have hnilf : [c.id].filter (fun i => decide (i ∉ mapKeys M0)) = [] := by
              simp [hcM0]
            rw [hnilf, List.append_nil]
            refine h3.trans ?_
            simp only [List.map_append, List.map_cons, List.map_nil]
            exact orderedIdsOf_sublist_append _ _ _
          · have honef : [c.id].filter (fun i => decide (i ∉ mapKeys M0)) = [c.id] := by
              simp [hcM0]
            rw [honef]
            have hnotin : c.id ∉ cs.map (fun c => c.id) := by
              intro hmem
              have hh := h4 c.id hmem hcM0
              rw [mapHas, h0] at hh
              simp at hh
            have hoi : orderedIdsOf (cs.map (fun c => c.id) ++ [c.id]) [] =
                orderedIdsOf (cs.map (fun c => c.id)) [] ++ [c.id] := by
              rw [orderedIdsOf_append_singleton, if_neg ?hne]
              case hne =>
                intro hmem
                rcases (mem_orderedIdsOf _ _ _).mp hmem with hmem' | hmem'
                · simp at hmem'
                · exact hnotin hmem'
            simp only [List.map_append, List.map_cons, List.map_nil]
            rw [hoi]
            exact List.Sublist.append h3 (List.Sublist.refl _)
        · intro k hk hkM0
          rw [hstep]
          show mapHas (mapSet A.byId c.id (insertRecord c now)) k = true
          rw [mapHas_mapSet]
          by_cases hkc : k = c.id
          · rw [if_pos hkc]
          · rw [if_neg hkc]
            exact h4 k (mem_map_id_of_append cs c k hk hkc) hkM0
        · intro k v hget htool hks
          rw [hstep] at hget
          have hget' : mapGet (mapSet A.byId c.id (insertRecord c now)) k = some v :=
            hget
          by_cases hkc : k = c.id
          · rw [hkc, mapGet_mapSet_self] at hget'
            injection hget' with hv
            have hct : c.source = LoopSource.tool := by
              rw [show c.source = (insertRecord c now).source from rfl, hv]
              exact htool
            rw [hcdisc] at hct
            exact LoopSource.noConfusion hct
          · rw [mapGet_mapSet_ne A.byId c.id k _ hkc] at hget'
            exact h5 k v hget' htool hks

/-- C4: for every merge of a candidate sequence (poll candidates all carry
source `discovered`, as the resolver produces them) into a collection with
unique identities, the resulting collection preserves the pre-merge relative
order of all previously-known identities (the surviving old identities form
the filter of the old order), and newly-inserted identities are appended
after them in poll-result (first-occurrence) order; no re-sorting happens. -/
theorem mergePolled_order_stability (st : LoopManagerState) (now : Nat)
    (polled : List TrackedLoop)
    (hnd : (st.loops.map (fun l => l.id)).Nodup)
    (hdisc : ∀ c ∈ polled, c.source = LoopSource.discovered) :
    ∃ fresh : List String,
      (mergePolled st now polled).loops.map (fun l => l.id) =
        (st.loops.map (fun l => l.id)).filter
          (fun i => decide (i ∈ (mergePolled st now polled).loops.map (fun l => l.id)))
          ++ fresh ∧
      (∀ i ∈ fresh, i ∉ st.loops.map (fun l => l.id)) ∧
      fresh.Sublist (orderedIdsOf (polled.map (fun c => c.id)) []) := by
  obtain ⟨kept, freshK, h1, h2, h3, h4, h5⟩ :=
    foldl_mergeStep_keys_structure now (buildMap st.loops) (nodupKeys_buildMap st.loops)
      polled hdisc
  have hkeysM2 : mapKeys (mergedMap st now polled) = kept ++ freshK := by
    unfold mergedMap
    rw [mapKeys_markRemoved]
    exact h1
  have hM0keys : ∀ i, i ∈ mapKeys (buildMap st.loops) ↔
      i ∈ st.loops.map (fun l => l.id) := by
    intro i
    rw [← mapHas_iff_mem_keys]
    exact mapHas_buildMap st.loops i
  have hpost : (mergePolled st now polled).loops.map (fun l => l.id) =
      mergedIds st now polled := mergePolled_loops_map_id st now polled
  set o1 : List String := (st.loops.map (fun l => l.id)).filter
    (fun i => mapHas (mergedMap st now polled) i) with ho1
  have hmemIds : ∀ i, i ∈ mergedIds st now polled ↔
      i ∈ mapKeys (mergedMap st now polled) := by
    intro i
    constructor
    · intro h
      exact (mapHas_iff_mem_keys _ _).mp (mapHas_of_mem_mergedIds st now polled i h)
    · intro h
      have hh : i ∈ orderedIdsOf (mapKeys (mergedMap st now polled)) o1 :=
        (mem_orderedIdsOf _ _ _).mpr (Or.inr h)
      exact hh
  obtain ⟨extra, hdec, hsub⟩ :=
    orderedIdsOf_decomp (mapKeys (mergedMap st now polled)) o1
  have hids : mergedIds st now polled = o1 ++ extra := hdec
  refine ⟨extra, ?_, ?_, ?_⟩
  · conv_lhs => rw [hpost, hids]
    congr 1
    refine List.filter_congr ?_
    intro i hi
    cases hb : mapHas (mergedMap st now polled) i with
    | false =>
      have hnot : ¬i ∈ (mergePolled st now polled).loops.map (fun l => l.id) := by
        rw [hpost]
        intro hmem
        have hh := (mapHas_iff_mem_keys _ _).mpr ((hmemIds i).mp hmem)
        rw [hb] at hh
        exact Bool.noConfusion hh
      simp [hnot]
    | true =>
      have hmem : i ∈ (mergePolled st now polled).loops.map (fun l => l.id) := by
        rw [hpost]
        exact (hmemIds i).mpr ((mapHas_iff_mem_keys _ _).mp hb)
      simp [hmem]
  · intro i hie hipre
    have hfmem := hsub.subset hie
    have hikeys : i ∈ mapKeys (mergedMap st now polled) :=
      (List.mem_filter.mp hfmem).1
    have hio1no : ¬i ∈ o1 := by
      have hh := (List.mem_filter.mp hfmem).2
      simpa using hh
    refine hio1no ?_
    rw [ho1]
    refine List.mem_filter.mpr ⟨hipre, ?_⟩
    exact (mapHas_iff_mem_keys _ _).mpr hikeys
  · refine hsub.trans ?_
    rw [hkeysM2, List.filter_append]
    have hkept0 : kept.filter (fun i => decide (i ∉ o1)) = [] := by
      rw [List.filter_eq_nil_iff]
      intro a ha
      simp only [decide_eq_true_eq, not_not]
      have haM0 : a ∈ mapKeys (buildMap st.loops) := h2.subset ha
      have hapre : a ∈ st.loops.map (fun l => l.id) := (hM0keys a).mp haM0
      have hakeys : a ∈ mapKeys (mergedMap st now polled) := by
        rw [hkeysM2]
        exact List.mem_append_left _ ha
      rw [ho1]
      exact List.mem_filter.mpr ⟨hapre, (mapHas_iff_mem_keys _ _).mpr hakeys⟩
    rw [hkept0, List.nil_append]
    have hfcong : freshK.filter (fun i => decide (i ∉ o1)) =
        freshK.filter (fun i => decide (i ∉ mapKeys (buildMap st.loops))) := by
      refine List.filter_congr ?_
      intro a ha
      have hakeys : a ∈ mapKeys (mergedMap st now polled) := by
        rw [hkeysM2]
        exact List.mem_append_right _ ha
      have hhas : mapHas (mergedMap st now polled) a = true :=
        (mapHas_iff_mem_keys _ _).mpr hakeys
      have hiff2 : (a ∈ o1) ↔ a ∈ mapKeys (buildMap st.loops) := by
        constructor
        · intro h
          rw [ho1] at h
          exact (hM0keys a).mpr (List.mem_filter.mp h).1
        · intro h
          rw [ho1]
          exact List.mem_filter.mpr ⟨(hM0keys a).mp h, hhas⟩
      rw [decide_eq_decide]
      exact not_congr hiff2
    rw [hfcong]
    exact h3

/-- Witness for C4 at a concrete state and poll input. -/
theorem mergePolled_order_stability_witness :
    (((⟨[{ id := "a", pid := none, directory := some "/p", worktree := none,
           status := "running", iteration := 0, maxIterations := 0, hat := none,
           elapsedSecs := 0, backend := none, source := LoopSource.discovered,
           ptySession := none, removed := false, lastSeenAt := 0 }], 0, false, 0,
         none⟩ : LoopManagerState).loops.map (fun l => l.id)).Nodup) ∧
    (∀ c ∈ [({ id := "b", pid := none, directory := some "/q", worktree := none,
               status := "running", iteration := 0, maxIterations := 0, hat := none,
               elapsedSecs := 0, backend := none, source := LoopSource.discovered,
               ptySession := none, removed := false, lastSeenAt := 5 } : TrackedLoop)],
      c.source = LoopSource.discovered) ∧
    (∃ fresh : List String,
      (mergePolled
          (⟨[{ id := "a", pid := none, directory := some "/p", worktree := none,
               status := "running", iteration := 0, maxIterations := 0, hat := none,
               elapsedSecs := 0, backend := none, source := LoopSource.discovered,
               ptySession := none, removed := false, lastSeenAt := 0 }], 0, false, 0,
             none⟩ : LoopManagerState) 5
          [{ id := "b", pid := none, directory := some "/q", worktree := none,
             status := "running", iteration := 0, maxIterations := 0, hat := none,
             elapsedSecs := 0, backend := none, source := LoopSource.discovered,
             ptySession := none, removed := false, lastSeenAt := 5 }]).loops.map
          (fun l => l.id) =
        ((⟨[{ id := "a", pid := none, directory := some "/p", worktree := none,
              status := "running", iteration := 0, maxIterations := 0, hat := none,
              elapsedSecs := 0, backend := none, source := LoopSource.discovered,
              ptySession := none, removed := false, lastSeenAt := 0 }], 0, false, 0,
            none⟩ : LoopManagerState).loops.map (fun l => l.id)).filter
          (fun i => decide (i ∈ (mergePolled
            (⟨[{ id := "a", pid := none, directory := some "/p", worktree := none,
                 status := "running", iteration := 0, maxIterations := 0, hat := none,
                 elapsedSecs := 0, backend := none, source := LoopSource.discovered,
                 ptySession := none, removed := false, lastSeenAt := 0 }], 0, false, 0,
               none⟩ : LoopManagerState) 5
            [{ id := "b", pid := none, directory := some "/q", worktree := none,
               status := "running", iteration := 0, maxIterations := 0, hat := none,
               elapsedSecs := 0, backend := none, source := LoopSource.discovered,
               ptySession := none, removed := false, lastSeenAt := 5 }]).loops.map
            (fun l => l.id))) ++ fresh ∧
      (∀ i ∈ fresh,
        i ∉ (⟨[{ id := "a", pid := none, directory := some "/p", worktree := none,
                 status := "running", iteration := 0, maxIterations := 0, hat := none,
                 elapsedSecs := 0, backend := none, source := LoopSource.discovered,
                 ptySession := none, removed := false, lastSeenAt := 0 }], 0, false, 0,
               none⟩ : LoopManagerState).loops.map (fun l => l.id)) ∧
      fresh.Sublist (orderedIdsOf
        ([({ id := "b", pid := none, directory := some "/q", worktree := none,
             status := "running", iteration := 0, maxIterations := 0, hat := none,
             elapsedSecs := 0, backend := none, source := LoopSource.discovered,
             ptySession := none, removed := false, lastSeenAt := 5 } :
           TrackedLoop)].map (fun c => c.id)) [])) := by
  refine ⟨by decide, by decide, ?_⟩
  exact mergePolled_order_stability _ 5 _ (by decide) (by decide)

/-! ## Idempotence lemmas (claim C3): repeated merging of one key's
candidate occurrences -/

theorem mergeRecord_directory_eq (ex c : TrackedLoop) (now : Nat) :
    (mergeRecord ex c now).directory =
      if goodDir c.directory then c.directory else ex.directory := rfl

theorem mergeRecord_worktree_none (ex c : TrackedLoop) (now : Nat)
    (h : c.worktree = none) : (mergeRecord ex c now).worktree = ex.worktree := by
  simp [mergeRecord, h]

theorem mergeRecord_worktree_some (ex c : TrackedLoop) (now : Nat) (w : String)
    (h : c.worktree = some w) : (mergeRecord ex c now).worktree = some w := by
  simp [mergeRecord, h]

theorem foldl_mR_source (now : Nat) (cs : List TrackedLoop) :
    ∀ x : TrackedLoop,
      (cs.foldl (fun a c => mergeRecord a c now) x).source = x.source := by
  induction cs with
  | nil =>
    intro x
    rfl
  | cons c cs ih =>
    intro x
    rw [List.foldl_cons, ih (mergeRecord x c now), mergeRecord_source]

theorem foldl_mR_ptySession (now : Nat) (cs : List TrackedLoop) :
    ∀ x : TrackedLoop,
      (cs.foldl (fun a c => mergeRecord a c now) x).ptySession = x.ptySession := by
  induction cs with
  | nil =>
    intro x
    rfl
  | cons c cs ih =>
    intro x
    rw [List.foldl_cons, ih (mergeRecord x c now), mergeRecord_ptySession]

theorem foldl_mR_directory (now : Nat) (cs : List TrackedLoop) :
    ∀ x : TrackedLoop,
      (cs.foldl (fun a c => mergeRecord a c now) x).directory =
        cs.foldl (fun d c => if goodDir c.directory then c.directory else d)
          x.directory := by
  induction cs with
  | nil =>
    intro x
    rfl
  | cons c cs ih =>
    intro x
    rw [List.foldl_cons, List.foldl_cons, ih (mergeRecord x c now),
      mergeRecord_directory_eq]

theorem foldl_mR_worktree (now : Nat) (cs : List TrackedLoop) :
    ∀ x : TrackedLoop,
      (cs.foldl (fun a c => mergeRecord a c now) x).worktree =
        cs.foldl (fun w c => match c.worktree with
          | some w' => some w'
          | none => w) x.worktree := by
  induction cs with
  | nil =>
    intro x
    rfl
  | cons c cs ih =>
    intro x
    rw [List.foldl_cons, List.foldl_cons, ih (mergeRecord x c now)]
    cases hw : c.worktree with
    | some w => rw [mergeRecord_worktree_some x c now w hw]
    | none => rw [mergeRecord_worktree_none x c now hw]

theorem dirFold_absorb (cs : List TrackedLoop) :
    ∀ d : Option String,
      cs.foldl (fun d c => if goodDir c.directory then c.directory else d)
        (cs.foldl (fun d c => if goodDir c.directory then c.directory else d) d) =
      cs.foldl (fun d c => if goodDir c.directory then c.directory else d) d := by
  induction cs using List.reverseRecOn with
  | nil =>
    intro d
    rfl
  | append_singleton ds c ih =>
    intro d
    simp only [List.foldl_append, List.foldl_cons, List.foldl_nil]
    by_cases hg : goodDir c.directory = true
    · simp [hg]
    · have hg' : goodDir c.directory = false := by simpa using hg
      simp only [hg', Bool.false_eq_true, if_false]
      exact ih d

theorem wtFold_absorb (cs : List TrackedLoop) :
    ∀ w : Option String,
      cs.foldl (fun w c => match c.worktree with
        | some w' => some w'
        | none => w)
        (cs.foldl (fun w c => match c.worktree with
          | some w' => some w'
          | none => w) w) =
      cs.foldl (fun w c => match c.worktree with
        | some w' => some w'
        | none => w) w := by
  induction cs using List.reverseRecOn with
  | nil =>
    intro w
    rfl
  | append_singleton ds c ih =>
    intro w
    simp only [List.foldl_append, List.foldl_cons, List.foldl_nil]
    cases hw : c.worktree with
    | some w' => rfl
    | none => exact ih w

theorem mergeRecord_congr (A B c : TrackedLoop) (now : Nat)
    (hs : A.source = B.source) (hp : A.ptySession = B.ptySession)
    (hd : goodDir c.directory = false → A.directory = B.directory)
    (hw : c.worktree = none → A.worktree = B.worktree) :
    mergeRecord A c now = mergeRecord B c now := by
  unfold mergeRecord
  rw [hs, hp]
  by_cases hg : goodDir c.directory = true
  · cases hwt : c.worktree with
    | some w => simp [hg, hwt]
    | none =>
      rw [hw hwt]
      simp [hg, hwt]
  · have hg' : goodDir c.directory = false := by simpa using hg
    rw [hd hg']
    cases hwt : c.worktree with
    | some w => simp [hg', hwt]
    | none => rw [hw hwt]

theorem foldl_mergeRecord_absorb (now : Nat) (cs : List TrackedLoop) (x : TrackedLoop) :
    cs.foldl (fun a c => mergeRecord a c now)
      (cs.foldl (fun a c => mergeRecord a c now) x) =
    cs.foldl (fun a c => mergeRecord a c now) x := by
  induction cs using List.reverseRecOn with
  | nil => rfl
  | append_singleton ds c _ =>
    simp only [List.foldl_append, List.foldl_cons, List.foldl_nil]
    refine mergeRecord_congr _ _ c now ?_ ?_ ?_ ?_
    · rw [foldl_mR_source, mergeRecord_source, foldl_mR_source]
    · rw [foldl_mR_ptySession, mergeRecord_ptySession, foldl_mR_ptySession]
    · intro hg
      rw [foldl_mR_directory now ds (mergeRecord (ds.foldl (fun a c => mergeRecord a c now) x) c now),
        mergeRecord_directory_bad _ c now hg, foldl_mR_directory now ds x]
      exact dirFold_absorb ds x.directory
    · intro hwt
      rw [foldl_mR_worktree now ds (mergeRecord (ds.foldl (fun a c => mergeRecord a c now) x) c now),
        mergeRecord_worktree_none _ c now hwt, foldl_mR_worktree now ds x]
      exact wtFold_absorb ds x.worktree

theorem mergeStep_get_nostarts (now : Nat) (acc : MergeAcc) (c : TrackedLoop)
    (k : String) (hks : strStartsWith k "primary-" = false) (hne : ¬c.id = k) :
    mapGet (mergeStep now acc c).byId k = mapGet acc.byId k := by
  have hkc : k ≠ c.id := fun e => hne e.symm
  cases h0 : mapGet acc.byId c.id with
  | some e =>
    rw [mergeStep_update now acc c e h0]
    exact mapGet_mapSet_ne acc.byId c.id k _ hkc
  | none =>
    by_cases hp : c.id = "(primary)"
    · cases hr : findRekey c.directory acc.byId with
      | some q =>
        rw [mergeStep_rekey now acc c q h0 hp hr]
        obtain ⟨-, -, hqpre, -⟩ := findRekey_spec _ _ _ hr
        have hqk : k ≠ q.1 := by
          intro e
          rw [← e] at hqpre
          rw [hks] at hqpre
          exact Bool.noConfusion hqpre
        rw [show mapGet (mapSet (mapDelete acc.byId q.1) c.id (mergeRecord q.2 c now)) k =
            mapGet (mapDelete acc.byId q.1) k from
          mapGet_mapSet_ne _ c.id k _ hkc]
        exact mapGet_mapDelete_ne acc.byId q.1 k hqk
      | none =>
        rw [mergeStep_insert_primary now acc c h0 hp hr]
        exact mapGet_mapSet_ne acc.byId c.id k _ hkc
    · rw [mergeStep_insert now acc c h0 hp]
      exact mapGet_mapSet_ne acc.byId c.id k _ hkc

theorem foldl_mergeStep_has_of (now : Nat) (cs : List TrackedLoop) (k : String)
    (hks : strStartsWith k "primary-" = false) :
    ∀ acc : MergeAcc, (mapHas acc.byId k = true ∨ k ∈ cs.map (fun c => c.id)) →
      mapHas ((cs.foldl (mergeStep now) acc).byId) k = true := by
  induction cs with
  | nil =>
    intro acc h
    rcases h with h | h
    · exact h
    · simp at h
  | cons c cs ih =>
    intro acc h
    rw [List.foldl_cons]
    by_cases hkc : k = c.id
    · refine ih (mergeStep now acc c) (Or.inl ?_)
      obtain ⟨v, hv, -⟩ := mergeStep_get_self now acc c
      rw [← hkc] at hv
      simp [mapHas, hv]
    · refine ih (mergeStep now acc c) ?_
      rcases h with h | h
      · refine Or.inl ?_
        show (mapGet (mergeStep now acc c).byId k).isSome = true
        rw [mergeStep_get_nostarts now acc c k hks (fun e => hkc e.symm)]
        exact h
      · simp only [List.map_cons, List.mem_cons] at h
        rcases h with h | h
        · exact absurd h hkc
        · exact Or.inr h

theorem mergeRecord_insertRecord (c : TrackedLoop) (now : Nat) :
    mergeRecord (insertRecord c now) c now = insertRecord c now := by
  unfold mergeRecord insertRecord
  by_cases hg : goodDir c.directory = true
  · cases hw : c.worktree <;> simp [hg, hw]
  · have hg' : goodDir c.directory = false := by simpa using hg
    cases hw : c.worktree <;> simp [hg', hw]

/-- After the merge loop, the binding of every candidate identity is the
fold of `mergeRecord` over that identity's occurrences in the candidate
sequence, starting from some record (provided no candidate identity matches
the rekeyable pattern, so that per-key histories are never spliced). -/
theorem foldl_mergeStep_occ_shape (now : Nat) (M0 : LoopMap) (hn0 : NodupKeys M0) :
    ∀ polled : List TrackedLoop,
      (∀ c ∈ polled, strStartsWith c.id "primary-" = false) →
      ∀ k, k ∈ polled.map (fun c => c.id) →
      ∃ x : TrackedLoop,
        mapGet ((polled.foldl (mergeStep now) { byId := M0, seen := [] }).byId) k =
          some ((polled.filter (fun c => c.id = k)).foldl
            (fun a c => mergeRecord a c now) x) := by
  intro polled
  induction polled using List.reverseRecOn with
  | nil =>
    intro _ k hk
    simp at hk
  | append_singleton cs c ih =>
    intro hpp k hk
    have hpp' : ∀ c' ∈ cs, strStartsWith c'.id "primary-" = false :=
      fun c' hc' => hpp c' (List.mem_append_left _ hc')
    have hcpp : strStartsWith c.id "primary-" = false :=
      hpp c (List.mem_append_right _ (List.mem_cons_self c []))
    set A : MergeAcc := cs.foldl (mergeStep now) { byId := M0, seen := [] } with hA
    have hfold : ((cs ++ [c]).foldl (mergeStep now) { byId := M0, seen := [] }) =
        mergeStep now A c := by
      rw [List.foldl_append, List.foldl_cons, List.foldl_nil, hA]
    rw [hfold, List.filter_append]
    by_cases hkc : k = c.id
    · subst hkc
      have hfc : [c].filter (fun c' => c'.id = c.id) = [c] := by simp
      rw [hfc]
      cases h0 : mapGet A.byId c.id with
      | some e =>
        rw [mergeStep_update now A c e h0]
        have hget : mapGet (mapSet A.byId c.id (mergeRecord e c now)) c.id =
            some (mergeRecord e c now) := mapGet_mapSet_self ..
        by_cases hin : c.id ∈ cs.map (fun c => c.id)
        · obtain ⟨x, hx⟩ := ih hpp' c.id hin
          rw [h0] at hx
          injection hx with hx
          refine ⟨x, ?_⟩
          rw [hget, List.foldl_append, List.foldl_cons, List.foldl_nil, ← hx]
        · have hfnil : cs.filter (fun c' => c'.id = c.id) = [] := by
            rw [List.filter_eq_nil_iff]
            intro a ha
            simp only [decide_eq_true_eq]
            intro he
            exact hin (List.mem_map.mpr ⟨a, ha, he⟩)
          refine ⟨e, ?_⟩
          rw [hfnil, List.nil_append, List.foldl_cons, List.foldl_nil, hget]
      | none =>
        have hnin : ¬c.id ∈ cs.map (fun c => c.id) := by
          intro hmem
          have hh := foldl_mergeStep_has_of now cs c.id hcpp
            { byId := M0, seen := [] } (Or.inr hmem)
          rw [← hA] at hh
          rw [mapHas, h0] at hh
          simp at hh
        have hfnil : cs.filter (fun c' => c'.id = c.id) = [] := by
          rw [List.filter_eq_nil_iff]
          intro a ha
          simp only [decide_eq_true_eq]
          intro he
          exact hnin (List.mem_map.mpr ⟨a, ha, he⟩)
        rw [hfnil, List.nil_append]
        by_cases hp : c.id = "(primary)"
        · cases hr : findRekey c.directory A.byId with
          | some q =>
            rw [mergeStep_rekey now A c q h0 hp hr]
            refine ⟨q.2, ?_⟩
            rw [List.foldl_cons, List.foldl_nil]
            exact mapGet_mapSet_self ..
          | none =>
            rw [mergeStep_insert_primary now A c h0 hp hr]
            refine ⟨insertRecord c now, ?_⟩
            rw [List.foldl_cons, List.foldl_nil, mergeRecord_insertRecord]
            exact mapGet_mapSet_self ..
        · rw [mergeStep_insert now A c h0 hp]
          refine ⟨insertRecord c now, ?_⟩
          rw [List.foldl_cons, List.foldl_nil, mergeRecord_insertRecord]
          exact mapGet_mapSet_self ..
    · have hk' : k ∈ cs.map (fun c => c.id) := mem_map_id_of_append cs c k hk hkc
      obtain ⟨x, hx⟩ := ih hpp' k hk'
      have hks : strStartsWith k "primary-" = false := by
        rcases List.mem_map.mp hk' with ⟨c', hc', rfl⟩
        exact hpp' c' hc'
      have hne : ¬c.id = k := fun e => hkc e.symm
      have hfc : [c].filter (fun c' => c'.id = k) = [] := by
        simp [hne]
      rw [hfc, List.append_nil]
      refine ⟨x, ?_⟩
      rw [mergeStep_get_nostarts now A c k hks hne]
      exact hx

theorem mapSet_eq_map_of_nodup (m : LoopMap) (k : String) (v : TrackedLoop) :
    NodupKeys m → mapHas m k = true →
    mapSet m k v = m.map (fun p => if p.1 = k then (k, v) else p) := by
  induction m with
  | nil =>
    intro _ hh
    simp [mapHas, mapGet] at hh
  | cons p m ih =>
    intro hn hh
    have hnm : NodupKeys m := by
      have hx := hn
      simp only [NodupKeys, mapKeys, List.map_cons, List.nodup_cons] at hx
      exact hx.2
    have hpk : p.1 ∉ mapKeys m := by
      have hx := hn
      simp only [NodupKeys, mapKeys, List.map_cons, List.nodup_cons] at hx
      exact hx.1
    by_cases hp : p.1 = k
    · have hset : mapSet (p :: m) k v = (k, v) :: m := by simp [mapSet, hp]
      have hmap : m.map (fun q => if q.1 = k then (k, v) else q) = m := by
        refine (List.map_congr_left ?_).trans (List.map_id' m)
        intro q hq
        have hqk : ¬q.1 = k := by
          intro e
          refine hpk ?_
          rw [hp, ← e]
          exact List.mem_map.mpr ⟨q, hq, rfl⟩
        rw [if_neg hqk]
      rw [hset, List.map_cons, if_pos hp, hmap]
    · have hset : mapSet (p :: m) k v = p :: mapSet m k v := by simp [mapSet, hp]
      have hh' : mapHas m k = true := by
        simp only [mapHas, mapGet, if_neg hp] at hh
        exact hh
      rw [hset, List.map_cons, if_neg hp, ih hnm hh']

/-- Closed form of the merge loop when every candidate identity is already
present in the map: nothing is inserted, deleted or rekeyed, and each
binding becomes the `mergeRecord` fold over the occurrences of its key. -/
theorem foldl_mergeStep_all_present (now : Nat) (cs : List TrackedLoop) :
    ∀ (M : LoopMap) (s : List String), NodupKeys M →
      (∀ c ∈ cs, mapHas M c.id = true) →
      ((cs.foldl (mergeStep now) { byId := M, seen := s }).byId =
        M.map (fun p => (p.1,
          (cs.filter (fun c => c.id = p.1)).foldl
            (fun a c => mergeRecord a c now) p.2))) := by
  induction cs with
  | nil =>
    intro M s _ _
    show M = _
    symm
    refine (List.map_congr_left ?_).trans (List.map_id' M)
    intro p hp
    rfl
  | cons c cs ih =>
    intro M s hn hall
    have hc : mapHas M c.id = true := hall c (List.mem_cons_self c cs)
    cases h0 : mapGet M c.id with
    | none =>
      rw [mapHas, h0] at hc
      simp at hc
    | some e =>
      rw [List.foldl_cons, mergeStep_update now { byId := M, seen := s } c e h0]
      have hnM1 : NodupKeys (mapSet M c.id (mergeRecord e c now)) :=
        nodupKeys_mapSet M c.id _ hn
      have hall1 : ∀ c' ∈ cs,
          mapHas (mapSet M c.id (mergeRecord e c now)) c'.id = true := by
        intro c' hc'
        rw [mapHas_mapSet]
        by_cases he : c'.id = c.id
        · rw [if_pos he]
        · rw [if_neg he]
          exact hall c' (List.mem_cons_of_mem _ hc')
      rw [ih (mapSet M c.id (mergeRecord e c now)) (seenAdd s c.id) hnM1 hall1,
        mapSet_eq_map_of_nodup M c.id (mergeRecord e c now) hn hc, List.map_map]
      refine List.map_congr_left ?_
      intro p hp
      by_cases hpk : p.1 = c.id
      · have hpe : p.2 = e := by
          have hg : mapGet M p.1 = some p.2 := mapGet_of_mem_nodup M p.1 p.2 hn hp
          rw [hpk, h0] at hg
          injection hg with hg
          exact hg.symm
        have hfe : (c :: cs).filter (fun c' => c'.id = p.1) =
            c :: cs.filter (fun c' => c'.id = p.1) := by
          simp [List.filter_cons, hpk.symm]
        simp only [Function.comp_apply, if_pos hpk]
        rw [hfe, List.foldl_cons, hpe, hpk]
      · have hne : ¬c.id = p.1 := fun e => hpk e.symm
        have hfe : (c :: cs).filter (fun c' => c'.id = p.1) =
            cs.filter (fun c' => c'.id = p.1) := by
          simp [List.filter_cons, hne]
        simp only [Function.comp_apply, if_neg hpk]
        rw [hfe]

theorem removed_absorb (r : TrackedLoop) (h : r.removed = true) :
    { r with removed := true } = r := by
  rw [← h]

theorem mapGet_markRemoved_cases (seen : List String) (m : LoopMap) (k : String)
    (v : TrackedLoop) (h : mapGet (markRemoved seen m) k = some v) :
    ∃ v1, mapGet m k = some v1 ∧
      ((v1.id ∉ seen ∧ v1.source ≠ LoopSource.tool ∧ v = { v1 with removed := true }) ∨
       (¬(v1.id ∉ seen ∧ v1.source ≠ LoopSource.tool) ∧ v = v1)) := by
  rw [mapGet_markRemoved] at h
  cases hv1 : mapGet m k with
  | none =>
    rw [hv1] at h
    exact Option.noConfusion h
  | some v1 =>
    rw [hv1] at h
    refine ⟨v1, rfl, ?_⟩
    have h' : some (if v1.id ∉ seen ∧ v1.source ≠ LoopSource.tool
        then { v1 with removed := true } else v1) = some v := h
    by_cases hc : v1.id ∉ seen ∧ v1.source ≠ LoopSource.tool
    · rw [if_pos hc] at h'
      injection h' with h'
      exact Or.inl ⟨hc.1, hc.2, h'.symm⟩
    · rw [if_neg hc] at h'
      injection h' with h'
      exact Or.inr ⟨hc, h'.symm⟩

theorem filterMap_eq_self_of (l : List TrackedLoop)
    (f : TrackedLoop → Option TrackedLoop) :
    (∀ r ∈ l, f r = some r) → l.filterMap f = l := by
  induction l with
  | nil =>
    intro _
    rfl
  | cons r l ih =>
    intro h
    have hr := h r (List.mem_cons_self r l)
    simp only [List.filterMap_cons, hr]
    rw [ih (fun q hq => h q (List.mem_cons_of_mem _ hq))]

/-- C3 (amended): merging the same candidate sequence twice in a row (at the
same timestamp) leaves the collection's content and order unchanged after the
second call, provided no candidate identity matches the rekeyable pattern
`primary-…` (the pattern the first merge may rekey away, whose re-presentation
breaks idempotence — see the counterexample) and identities are unique. -/
theorem mergePolled_idempotent_no_rekeyable (st : LoopManagerState) (now : Nat)
    (polled : List TrackedLoop)
    (hnd : (st.loops.map (fun l => l.id)).Nodup)
    (hnp : ∀ c ∈ polled, strStartsWith c.id "primary-" = false) :
    (mergePolled (mergePolled st now polled) now polled).loops =
      (mergePolled st now polled).loops := by
  set st1 : LoopManagerState := mergePolled st now polled with hst1
  have hI1 : st1.loops.map (fun l => l.id) = mergedIds st now polled := by
    rw [hst1]
    exact mergePolled_loops_map_id st now polled
  have ho1nodup : ((st.loops.map (fun l => l.id)).filter
      (fun i => mapHas (mergedMap st now polled) i)).Nodup := hnd.filter _
  have hI1nodup : (mergedIds st now polled).Nodup :=
    nodup_orderedIdsOf _ _ ho1nodup
  have hst1nd : (st1.loops.map (fun l => l.id)).Nodup := by
    rw [hI1]
    exact hI1nodup
  have hM2get : ∀ r ∈ st1.loops, mapGet (mergedMap st now polled) r.id = some r := by
    intro r hr
    rw [hst1] at hr
    obtain ⟨i, hi, hgi⟩ := (mem_mergePolled_loops st now polled r).mp hr
    have hid : r.id = i := keyId_mergedMap st now polled (i, r) (mapGet_mem _ _ _ hgi)
    rw [hid]
    exact hgi
  have hcin : ∀ c ∈ polled, c.id ∈ st1.loops.map (fun l => l.id) := by
    intro c hcmem
    rw [hI1]
    have hhas1 : mapHas ((mergeFold st now polled).byId) c.id = true := by
      refine foldl_mergeStep_has_of now polled c.id (hnp c hcmem) _ (Or.inr ?_)
      exact List.mem_map.mpr ⟨c, hcmem, rfl⟩
    have hkeys1 : c.id ∈ mapKeys (mergedMap st now polled) := by
      rw [show mapKeys (mergedMap st now polled) =
          mapKeys ((mergeFold st now polled).byId) from mapKeys_markRemoved _ _]
      exact (mapHas_iff_mem_keys _ _).mp hhas1
    exact (mem_orderedIdsOf _ _ _).mpr (Or.inr hkeys1)
  have hseen1iff : ∀ j, j ∈ (mergeFold st now polled).seen ↔
      j ∈ polled.map (fun c => c.id) := by
    intro j
    rw [show (mergeFold st now polled).seen = (polled.foldl (mergeStep now)
        { byId := buildMap st.loops, seen := [] }).seen from rfl,
      foldl_mergeStep_seen]
    simp
  have hshape : ∀ c ∈ polled, ∃ x,
      mapGet (buildMap st1.loops) c.id =
        some ((polled.filter (fun c' => c'.id = c.id)).foldl
          (fun a c' => mergeRecord a c' now) x) := by
    intro c hcmem
    obtain ⟨x, hx⟩ := foldl_mergeStep_occ_shape now (buildMap st.loops)
      (nodupKeys_buildMap st.loops) polled hnp c.id
      (List.mem_map.mpr ⟨c, hcmem, rfl⟩)
    have hseen : c.id ∈ (mergeFold st now polled).seen :=
      (hseen1iff c.id).mpr (List.mem_map.mpr ⟨c, hcmem, rfl⟩)
    have hkid : KeyIdMap ((mergeFold st now polled).byId) :=
      foldl_mergeStep_keyId now polled _ (keyId_buildMap st.loops)
    have hM2 : mapGet (mergedMap st now polled) c.id =
        mapGet ((mergeFold st now polled).byId) c.id := by
      rw [show mergedMap st now polled =
          markRemoved (mergeFold st now polled).seen (mergeFold st now polled).byId
          from rfl, mapGet_markRemoved]
      cases hv : mapGet ((mergeFold st now polled).byId) c.id with
      | none => rfl
      | some v =>
        have hvid : v.id = c.id := hkid (c.id, v) (mapGet_mem _ _ _ hv)
        have hcond : ¬(v.id ∉ (mergeFold st now polled).seen ∧
            v.source ≠ LoopSource.tool) := by
          intro hcond
          exact hcond.1 (hvid ▸ hseen)
        simp [hcond]
    have hbuild : mapGet (buildMap st1.loops) c.id =
        mapGet (mergedMap st now polled) c.id := by
      refine mapGet_buildMap_eq st1.loops (mergedMap st now polled) c.id hM2get ?_
      exact hcin c hcmem
    refine ⟨x, ?_⟩
    rw [hbuild, hM2]
    exact hx
  have hN0n : NodupKeys (buildMap st1.loops) := nodupKeys_buildMap st1.loops
  have hallp : ∀ c ∈ polled, mapHas (buildMap st1.loops) c.id = true := by
    intro c hcmem
    exact (mapHas_buildMap _ _).mpr (hcin c hcmem)
  have hfold2 : ((polled.foldl (mergeStep now)
      { byId := buildMap st1.loops, seen := [] }).byId) =
      (buildMap st1.loops).map (fun p => (p.1,
        (polled.filter (fun c => c.id = p.1)).foldl
          (fun a c => mergeRecord a c now) p.2)) :=
    foldl_mergeStep_all_present now polled (buildMap st1.loops) [] hN0n hallp
  have hfix : (buildMap st1.loops).map (fun p => (p.1,
      (polled.filter (fun c => c.id = p.1)).foldl
        (fun a c => mergeRecord a c now) p.2)) = buildMap st1.loops := by
    refine (List.map_congr_left ?_).trans (List.map_id' _)
    intro p hp
    by_cases hin : p.1 ∈ polled.map (fun c => c.id)
    · obtain ⟨c, hcmem, hcid⟩ := List.mem_map.mp hin
      obtain ⟨x, hx⟩ := hshape c hcmem
      have hgp : mapGet (buildMap st1.loops) p.1 = some p.2 :=
        mapGet_of_mem_nodup _ p.1 p.2 hN0n hp
      rw [hcid, hgp] at hx
      injection hx with hx
      have habs : (polled.filter (fun c => c.id = p.1)).foldl
          (fun a c => mergeRecord a c now) p.2 = p.2 := by
        rw [hx]
        exact foldl_mergeRecord_absorb now _ x
      rw [habs]
    · have hocc : polled.filter (fun c => c.id = p.1) = [] := by
        rw [List.filter_eq_nil_iff]
        intro a ha
        simp only [decide_eq_true_eq]
        intro he
        exact hin (List.mem_map.mpr ⟨a, ha, he⟩)
      rw [hocc]
      rfl
  have hseen2iff : ∀ j, j ∈ (mergeFold st1 now polled).seen ↔
      j ∈ polled.map (fun c => c.id) := by
    intro j
    rw [show (mergeFold st1 now polled).seen = (polled.foldl (mergeStep now)
        { byId := buildMap st1.loops, seen := [] }).seen from rfl,
      foldl_mergeStep_seen]
    simp
  have hbyId2 : (mergeFold st1 now polled).byId = buildMap st1.loops := by
    rw [show (mergeFold st1 now polled).byId = (polled.foldl (mergeStep now)
        { byId := buildMap st1.loops, seen := [] }).byId from rfl, hfold2, hfix]
  have hmark2 : mergedMap st1 now polled = buildMap st1.loops := by
    rw [show mergedMap st1 now polled = markRemoved (mergeFold st1 now polled).seen
        (mergeFold st1 now polled).byId from rfl, hbyId2]
    refine (List.map_congr_left ?_).trans (List.map_id' _)
    intro p hp
    by_cases hcond : p.2.id ∉ (mergeFold st1 now polled).seen ∧
        p.2.source ≠ LoopSource.tool
    · rw [if_pos hcond]
      have hrem : p.2.removed = true := by
        obtain ⟨hp2mem, hp1id⟩ := mem_buildMap st1.loops p hp
        have hp2mem' : p.2 ∈ (mergePolled st now polled).loops := by
          rw [← hst1]
          exact hp2mem
        obtain ⟨i, hi, hgi⟩ := (mem_mergePolled_loops st now polled p.2).mp hp2mem'
        have hid : p.2.id = i :=
          keyId_mergedMap st now polled (i, p.2) (mapGet_mem _ _ _ hgi)
        rw [← hid] at hgi
        have hgi' : mapGet (markRemoved (mergeFold st now polled).seen
            (mergeFold st now polled).byId) p.2.id = some p.2 := hgi
        obtain ⟨v1, hv1, hcases⟩ := mapGet_markRemoved_cases _ _ _ _ hgi'
        rcases hcases with ⟨-, -, hveq⟩ | ⟨hnc, hveq⟩
        · rw [hveq]
        · exfalso
          refine hnc ⟨?_, ?_⟩
          · intro hs1
            have hmem1 : v1.id ∈ polled.map (fun c => c.id) :=
              (hseen1iff v1.id).mp hs1
            rw [← hveq] at hmem1
            exact hcond.1 ((hseen2iff p.2.id).mpr hmem1)
          · rw [← hveq]
            exact hcond.2
      rw [removed_absorb p.2 hrem]
    · rw [if_neg hcond]
  have hfull : (st1.loops.map (fun l => l.id)).filter
      (fun i => mapHas (mergedMap st1 now polled) i) =
        st1.loops.map (fun l => l.id) := by
    rw [List.filter_eq_self]
    intro a ha
    rw [hmark2]
    exact (mapHas_buildMap _ _).mpr ha
  have hids2 : mergedIds st1 now polled = st1.loops.map (fun l => l.id) := by
    rw [show mergedIds st1 now polled =
        orderedIdsOf (mapKeys (mergedMap st1 now polled))
          ((st1.loops.map (fun l => l.id)).filter
            (fun i => mapHas (mergedMap st1 now polled) i)) from rfl, hfull]
    refine orderedIdsOf_eq_self_of_subset _ _ ?_
    intro i hi
    rw [hmark2] at hi
    exact (mapHas_buildMap _ _).mp ((mapHas_iff_mem_keys _ _).mpr hi)
  rw [mergePolled_loops st1 now polled, hids2, hmark2, List.filterMap_map]
  refine filterMap_eq_self_of _ _ ?_
  intro r hr
  exact mapGet_buildMap_of_nodup st1.loops hst1nd r hr

/-- Counterexample to C3 as frozen: with a locally-started record keyed
`primary-x` and a candidate sequence that re-presents that identity alongside
the `(primary)` placeholder, the first merge rekeys the record away from
`primary-x` and the second merge re-inserts `primary-x` as a fresh record —
the collection differs after the second call (1 record vs 2). -/
theorem mergePolled_idempotent_counterexample :
    (mergePolled (mergePolled
        (⟨[{ id := "primary-x", pid := some 1, directory := some "/p", worktree := none,
             status := "running", iteration := 0, maxIterations := 0, hat := none,
             elapsedSecs := 0, backend := none, source := LoopSource.tool,
             ptySession := some 7, removed := false, lastSeenAt := 0 }], 0, false, 0,
           none⟩ : LoopManagerState) 5
        [{ id := "primary-x", pid := none, directory := some "/p", worktree := none,
           status := "running", iteration := 1, maxIterations := 0, hat := none,
           elapsedSecs := 3, backend := none, source := LoopSource.discovered,
           ptySession := none, removed := false, lastSeenAt := 5 },
         { id := "(primary)", pid := none, directory := some "/p", worktree := none,
           status := "running", iteration := 2, maxIterations := 0, hat := none,
           elapsedSecs := 9, backend := none, source := LoopSource.discovered,
           ptySession := none, removed := false, lastSeenAt := 5 }]) 5
        [{ id := "primary-x", pid := none, directory := some "/p", worktree := none,
           status := "running", iteration := 1, maxIterations := 0, hat := none,
           elapsedSecs := 3, backend := none, source := LoopSource.discovered,
           ptySession := none, removed := false, lastSeenAt := 5 },
         { id := "(primary)", pid := none, directory := some "/p", worktree := none,
           status := "running", iteration := 2, maxIterations := 0, hat := none,
           elapsedSecs := 9, backend := none, source := LoopSource.discovered,
           ptySession := none, removed := false, lastSeenAt := 5 }]).loops ≠
      (mergePolled
        (⟨[{ id := "primary-x", pid := some 1, directory := some "/p", worktree := none,
             status := "running", iteration := 0, maxIterations := 0, hat := none,
             elapsedSecs := 0, backend := none, source := LoopSource.tool,
             ptySession := some 7, removed := false, lastSeenAt := 0 }], 0, false, 0,
           none⟩ : LoopManagerState) 5
        [{ id := "primary-x", pid := none, directory := some "/p", worktree := none,
           status := "running", iteration := 1, maxIterations := 0, hat := none,
           elapsedSecs := 3, backend := none, source := LoopSource.discovered,
           ptySession := none, removed := false, lastSeenAt := 5 },
         { id := "(primary)", pid := none, directory := some "/p", worktree := none,
           status := "running", iteration := 2, maxIterations := 0, hat := none,
           elapsedSecs := 9, backend := none, source := LoopSource.discovered,
           ptySession := none, removed := false, lastSeenAt := 5 }]).loops := by
  decide

/-- Witness for the amended C3 at a concrete state and poll input. -/
theorem mergePolled_idempotent_no_rekeyable_witness :
    (((⟨[{ id := "a", pid := none, directory := some "/p", worktree := none,
           status := "running", iteration := 0, maxIterations := 0, hat := none,
           elapsedSecs := 0, backend := none, source := LoopSource.tool,
           ptySession := some 3, removed := false, lastSeenAt := 0 }], 0, false, 0,
         none⟩ : LoopManagerState).loops.map (fun l => l.id)).Nodup) ∧
    (∀ c ∈ [({ id := "b", pid := none, directory := some "/q", worktree := none,
               status := "running", iteration := 0, maxIterations := 0, hat := none,
               elapsedSecs := 0, backend := none, source := LoopSource.discovered,
               ptySession := none, removed := false, lastSeenAt := 5 } : TrackedLoop)],
      strStartsWith c.id "primary-" = false) ∧
    ((mergePolled (mergePolled
        (⟨[{ id := "a", pid := none, directory := some "/p", worktree := none,
             status := "running", iteration := 0, maxIterations := 0, hat := none,
             elapsedSecs := 0, backend := none, source := LoopSource.tool,
             ptySession := some 3, removed := false, lastSeenAt := 0 }], 0, false, 0,
           none⟩ : LoopManagerState) 5
        [{ id := "b", pid := none, directory := some "/q", worktree := none,
           status := "running", iteration := 0, maxIterations := 0, hat := none,
           elapsedSecs := 0, backend := none, source := LoopSource.discovered,
           ptySession := none, removed := false, lastSeenAt := 5 }]) 5
        [{ id := "b", pid := none, directory := some "/q", worktree := none,
           status := "running", iteration := 0, maxIterations := 0, hat := none,
           elapsedSecs := 0, backend := none, source := LoopSource.discovered,
           ptySession := none, removed := false, lastSeenAt := 5 }]).loops =
      (mergePolled
        (⟨[{ id := "a", pid := none, directory := some "/p", worktree := none,
             status := "running", iteration := 0, maxIterations := 0, hat := none,
             elapsedSecs := 0, backend := none, source := LoopSource.tool,
             ptySession := some 3, removed := false, lastSeenAt := 0 }], 0, false, 0,
           none⟩ : LoopManagerState) 5
        [{ id := "b", pid := none, directory := some "/q", worktree := none,
           status := "running", iteration := 0, maxIterations := 0, hat := none,
           elapsedSecs := 0, backend := none, source := LoopSource.discovered,
           ptySession := none, removed := false, lastSeenAt := 5 }]).loops) := by
  refine ⟨by decide, by decide, ?_⟩
  exact mergePolled_idempotent_no_rekeyable _ 5 _ (by decide) (by decide)

end PiRalph



